import Mathlib

/-!
Shallow embedding of src/comp_graph.rs: a builder/evaluator for computational
graphs over unsigned 32-bit integers, with equality constraints and hint
callbacks.

Modelling conventions:
* `u32` values are `Nat`; wrap-around of `+` and `*` (the Rust release-profile
  semantics of the `u32` operators used in `fill_node`) is explicit `% 2 ^ 32`.
* `HashMap<usize, Node>` keyed by indices: every insertion in the source uses
  the key `self.nodes.len()` and nothing is ever removed, so the key set is
  exactly `0 .. len-1`; the map is embedded as a `List Node` with the node of
  index `i` at position `i`, and `contains_key i` is `i < nodes.length`.
* The interior-mutable value cell (`AtomicU32` + `AtomicBool`) of a node is an
  `Option Nat` field; `set_value` is a functional update, and the mutation of
  `self` performed by `fill_node` / `fill_nodes` is explicit state passing of
  the whole graph.
* Rust panics become `Except.error`; the distinct panic sites of the evaluator
  are distinguished by the constructors of `FillError`, and builder panics
  carry the source's panic message as a string.  `HashSet` iteration and the
  rayon parallel fan-out are sequenced as list folds: within a level the
  memoized evaluation is order-insensitive, and the Rust barrier between
  levels is the sequential fold over levels.
* The recursion of `fill_node` is structural on an explicit fuel; the driver
  passes `nodes.length` fuel, which is exhausted only on dependency cycles,
  which the builder cannot create (every dependency index is strictly below
  the new node's index).
-/

inductive Operation where
  | add
  | mul
deriving DecidableEq

inductive NodeType where
  | constant (val : Nat)
  | input
  | derived (left : Nat) (right : Nat) (operation : Operation)
  | hint (dependent : Nat)
deriving DecidableEq

structure Node where
  index : Nat
  value : Option Nat
  node_type : NodeType
  level : Nat
deriving DecidableEq

def Node.new (index : Nat) (node_type : NodeType) (level : Nat) : Node :=
  { index := index, value := none, node_type := node_type, level := level }

def Node.get_value (n : Node) : Option Nat :=
  n.value

def Node.set_value (n : Node) (v : Nat) : Node :=
  { n with value := some v }

structure CompGraph where
  nodes : List Node
  constraints : List (Nat × Nat)
  hints : List (Nat × (Nat → Except String Nat))
  filled : Bool
  levels : List (List Nat)

/-- First-match lookup, modelling `HashMap::get` on the hint registry. -/
def lookupFn : List (Nat × (Nat → Except String Nat)) → Nat → Option (Nat → Except String Nat)
  | [], _ => none
  | p :: rest, i => if p.1 = i then some p.2 else lookupFn rest i

/-- First-match lookup, modelling `HashMap::get` on the input assignment. -/
def lookupAsg : List (Nat × Nat) → Nat → Option Nat
  | [], _ => none
  | p :: rest, i => if p.1 = i then some p.2 else lookupAsg rest i

/-- Write a node's value cell in the node store (`node.set_value(v)`). -/
def setCell : List Node → Nat → Nat → List Node
  | [], _, _ => []
  | n :: rest, 0, v => n.set_value v :: rest
  | n :: rest, i + 1, v => n :: setCell rest i v

def CompGraph.setValue (g : CompGraph) (i : Nat) (v : Nat) : CompGraph :=
  { g with nodes := setCell g.nodes i v }

def CompGraph.get_value (g : CompGraph) (i : Nat) : Option Nat :=
  match g.nodes[i]? with
  | none => none
  | some n => n.get_value

/-- `self.levels[level].insert(idx)` (no-op out of bounds; the source only
reaches it in bounds, `levels` being nonempty from construction on). -/
def levelInsert : List (List Nat) → Nat → Nat → List (List Nat)
  | [], _, _ => []
  | s :: rest, 0, idx => (idx :: s) :: rest
  | s :: rest, l + 1, idx => s :: levelInsert rest l idx

def CompGraph.new : CompGraph :=
  { nodes := [], constraints := [], hints := [], filled := false, levels := [[]] }

def CompGraph.init (g : CompGraph) : CompGraph × Nat :=
  let idx := g.nodes.length
  ({ g with nodes := g.nodes ++ [Node.new idx NodeType.input 0],
            levels := levelInsert g.levels 0 idx },
   idx)

def CompGraph.constant (g : CompGraph) (value : Nat) : CompGraph × Nat :=
  let idx := g.nodes.length
  let new_node := (Node.new idx (NodeType.constant value) 0).set_value value
  ({ g with nodes := g.nodes ++ [new_node],
            levels := levelInsert g.levels 0 idx },
   idx)

def CompGraph.add_to_level (g : CompGraph) (idx : Nat) (level : Nat) : CompGraph :=
  let ls := if g.levels.length ≤ level then g.levels ++ [[]] else g.levels
  { g with levels := levelInsert ls level idx }

/-- `self.nodes[&a].level` for an existing node (0 is never read at a missing
index: every use is guarded by the existence check). -/
def CompGraph.levelOf (g : CompGraph) (i : Nat) : Nat :=
  match g.nodes[i]? with
  | some n => n.level
  | none => 0

def CompGraph.add (g : CompGraph) (a : Nat) (b : Nat) : Except String (CompGraph × Nat) :=
  if g.nodes.length ≤ a ∨ g.nodes.length ≤ b then
    .error "One of the nodes does not exist."
  else
    let idx := g.nodes.length
    let a_level := g.levelOf a
    let b_level := g.levelOf b
    let new_level := max a_level b_level + 1
    let new_node := Node.new idx (NodeType.derived a b Operation.add) new_level
    let g1 : CompGraph := { g with nodes := g.nodes ++ [new_node] }
    .ok (g1.add_to_level idx new_level, idx)

def CompGraph.mul (g : CompGraph) (a : Nat) (b : Nat) : Except String (CompGraph × Nat) :=
  if g.nodes.length ≤ a ∨ g.nodes.length ≤ b then
    .error "One of the nodes does not exist."
  else
    let idx := g.nodes.length
    let a_level := g.levelOf a
    let b_level := g.levelOf b
    let new_level := max a_level b_level + 1
    let new_node := Node.new idx (NodeType.derived a b Operation.mul) new_level
    let g1 : CompGraph := { g with nodes := g.nodes ++ [new_node] }
    .ok (g1.add_to_level idx new_level, idx)

def CompGraph.assert_equal (g : CompGraph) (a : Nat) (b : Nat) : Except String CompGraph :=
  if g.nodes.length ≤ a ∨ g.nodes.length ≤ b then
    .error "One of the nodes does not exist."
  else
    .ok { g with constraints := g.constraints ++ [(a, b)] }

def CompGraph.hint (g : CompGraph) (dependent_idx : Nat)
    (hint_fn : Nat → Except String Nat) : Except String (CompGraph × Nat) :=
  if g.nodes.length ≤ dependent_idx then
    .error "Dependent node does not exist."
  else
    let dep_level := g.levelOf dependent_idx
    let idx := g.nodes.length
    let new_node := Node.new idx (NodeType.hint dependent_idx) (dep_level + 1)
    let g1 : CompGraph :=
      { g with nodes := g.nodes ++ [new_node], hints := g.hints ++ [(idx, hint_fn)] }
    .ok (g1.add_to_level idx (dep_level + 1), idx)

/-- The distinct panic sites of the evaluator: the `expect` on a missing map
entry in `self.nodes` indexing, the missing-input `expect`, the
missing-hint-function `expect`, a hint callback returning `Err`, and — an
artifact of the fuel embedding — nontermination on a dependency cycle. -/
inductive FillError where
  | nodeMissing
  | inputMissing
  | hintMissing
  | hintFailed (msg : String)
  | outOfFuel
deriving DecidableEq

/-- `+` and `*` on `u32`: wrap-around made explicit. -/
def applyOp (op : Operation) (x : Nat) (y : Nat) : Nat :=
  match op with
  | .add => (x + y) % 2 ^ 32
  | .mul => (x * y) % 2 ^ 32

/-- The exact (unwrapped) result of an operator, used to state claims whose
hypothesis is that the result fits in 32 bits. -/
def opExact (op : Operation) (x : Nat) (y : Nat) : Nat :=
  match op with
  | .add => x + y
  | .mul => x * y

def fill_node (g : CompGraph) (fuel : Nat) (node_idx : Nat)
    (input_nodes : List (Nat × Nat)) : Except FillError (Nat × CompGraph) :=
  match fuel with
  | 0 => .error .outOfFuel
  | fuel + 1 =>
    match g.nodes[node_idx]? with
    | none => .error .nodeMissing
    | some node =>
      match node.get_value with
      | some val => .ok (val, g)
      | none =>
        match node.node_type with
        | .constant val => .ok (val, g.setValue node_idx val)
        | .input =>
          match lookupAsg input_nodes node_idx with
          | none => .error .inputMissing
          | some v => .ok (v, g.setValue node_idx v)
        | .derived left right operation =>
          match fill_node g fuel left input_nodes with
          | .error e => .error e
          | .ok (left_value, g1) =>
            match fill_node g1 fuel right input_nodes with
            | .error e => .error e
            | .ok (right_value, g2) =>
              let res := applyOp operation left_value right_value
              .ok (res, g2.setValue node_idx res)
        | .hint dependent =>
          match fill_node g fuel dependent input_nodes with
          | .error e => .error e
          | .ok (dep_value, g1) =>
            match lookupFn g1.hints node_idx with
            | none => .error .hintMissing
            | some hint_fn =>
              match hint_fn dep_value with
              | .ok val => .ok (val, g1.setValue node_idx val)
              | .error err => .error (.hintFailed err)

/-- Seed phase of `fill_nodes`: every assignment entry naming an existing node
populates that node's cell; other entries are skipped. -/
def seedInputs (g : CompGraph) (input_nodes : List (Nat × Nat)) : CompGraph :=
  input_nodes.foldl
    (fun g p => if p.1 < g.nodes.length then g.setValue p.1 p.2 else g) g

def fillLevel (g : CompGraph) (idxs : List Nat)
    (input_nodes : List (Nat × Nat)) : Except FillError CompGraph :=
  match idxs with
  | [] => .ok g
  | i :: rest =>
    match fill_node g g.nodes.length i input_nodes with
    | .error e => .error e
    | .ok (_, g1) => fillLevel g1 rest input_nodes

def fillLevels (g : CompGraph) (lvls : List (List Nat))
    (input_nodes : List (Nat × Nat)) : Except FillError CompGraph :=
  match lvls with
  | [] => .ok g
  | l :: rest =>
    match fillLevel g l input_nodes with
    | .error e => .error e
    | .ok g1 => fillLevels g1 rest input_nodes

def fill_nodes (g : CompGraph) (input_nodes : List (Nat × Nat)) :
    Except FillError CompGraph :=
  let g1 := seedInputs g input_nodes
  match fillLevels g1 g1.levels input_nodes with
  | .error e => .error e
  | .ok g2 => .ok { g2 with filled := true }

/-- One step of `check_constraints`: both `unwrap`s (missing node, missing
value) are `none`; a mismatch short-circuits (Rust `Iterator::all`) after
emitting one diagnostic `(n1, val1, n2, val2)`. -/
def checkConstraintsAux (g : CompGraph) :
    List (Nat × Nat) → Option (Bool × List (Nat × Nat × Nat × Nat))
  | [] => some (true, [])
  | (n1, n2) :: rest =>
    match g.get_value n1, g.get_value n2 with
    | some val1, some val2 =>
      if val1 ≠ val2 then some (false, [(n1, val1, n2, val2)])
      else checkConstraintsAux g rest
    | _, _ => none

def check_constraints (g : CompGraph) : Option (Bool × List (Nat × Nat × Nat × Nat)) :=
  checkConstraintsAux g g.constraints

/-- The value of node `i` after a successful `fill_nodes` run, `none` on a
pass that aborts. -/
def fillValue (g : CompGraph) (asg : List (Nat × Nat)) (i : Nat) : Option Nat :=
  match fill_nodes g asg with
  | .ok g1 => g1.get_value i
  | .error _ => none

/-- The graph after a successful `fill_nodes` run (the unfilled graph on an
aborting pass; used only to name the result of runs known to succeed). -/
def fillResult (g : CompGraph) (asg : List (Nat × Nat)) : CompGraph :=
  match fill_nodes g asg with
  | .ok g1 => g1
  | .error _ => g

/-- Graphs reachable through the public builder operations of `CompGraph`. -/
inductive Built : CompGraph → Prop
  | new : Built CompGraph.new
  | init (g : CompGraph) : Built g → Built (CompGraph.init g).1
  | constant (g : CompGraph) (v : Nat) : Built g → Built (CompGraph.constant g v).1
  | add (g g' : CompGraph) (a b idx : Nat) :
      Built g → CompGraph.add g a b = .ok (g', idx) → Built g'
  | mul (g g' : CompGraph) (a b idx : Nat) :
      Built g → CompGraph.mul g a b = .ok (g', idx) → Built g'
  | assert_equal (g g' : CompGraph) (a b : Nat) :
      Built g → CompGraph.assert_equal g a b = .ok g' → Built g'
  | hintStep (g g' : CompGraph) (d idx : Nat) (f : Nat → Except String Nat) :
      Built g → CompGraph.hint g d f = .ok (g', idx) → Built g'

/-! ### Basic lemmas about cell updates -/

theorem setCell_length (ns : List Node) (i v : Nat) :
    (setCell ns i v).length = ns.length := by
  induction ns generalizing i with
  | nil => rfl
  | cons n rest ih =>
    cases i with
    | zero => rfl
    | succ j => simp [setCell, ih]

theorem setCell_get_self (ns : List Node) (i v : Nat) :
    (setCell ns i v)[i]? = (ns[i]?).map (fun n => n.set_value v) := by
  induction ns generalizing i with
  | nil => cases i <;> rfl
  | cons n rest ih =>
    cases i with
    | zero => simp [setCell]
    | succ j => simpa [setCell] using ih j

theorem setCell_get_ne (ns : List Node) (i v j : Nat) (h : j ≠ i) :
    (setCell ns i v)[j]? = ns[j]? := by
  induction ns generalizing i j with
  | nil => cases i <;> rfl
  | cons n rest ih =>
    cases i with
    | zero =>
      cases j with
      | zero => exact absurd rfl h
      | succ k => simp [setCell]
    | succ m =>
      cases j with
      | zero => simp [setCell]
      | succ k =>
        have : k ≠ m := fun hk => h (by simp [hk])
        simpa [setCell] using ih m k this

theorem setValue_nodes_length (g : CompGraph) (i v : Nat) :
    (g.setValue i v).nodes.length = g.nodes.length := by
  simp [CompGraph.setValue, setCell_length]

theorem setValue_constraints (g : CompGraph) (i v : Nat) :
    (g.setValue i v).constraints = g.constraints := rfl

theorem setValue_hints (g : CompGraph) (i v : Nat) :
    (g.setValue i v).hints = g.hints := rfl

theorem setValue_levels (g : CompGraph) (i v : Nat) :
    (g.setValue i v).levels = g.levels := rfl

theorem get_value_setValue_ne (g : CompGraph) (i v j : Nat) (h : j ≠ i) :
    (g.setValue i v).get_value j = g.get_value j := by
  simp [CompGraph.get_value, CompGraph.setValue, setCell_get_ne g.nodes i v j h]

theorem get_value_setValue_self (g : CompGraph) (i v : Nat) (h : i < g.nodes.length) :
    (g.setValue i v).get_value i = some v := by
  rcases List.getElem?_eq_some.mpr ⟨h, rfl⟩ with hg
  simp [CompGraph.get_value, CompGraph.setValue, setCell_get_self, hg,
    Node.set_value, Node.get_value]

/-- Static (non-cell) agreement between two graphs: evaluation changes only
the value cells. -/
def sameShape (g g' : CompGraph) : Prop :=
  g'.constraints = g.constraints ∧ g'.hints = g.hints ∧ g'.levels = g.levels ∧
  g'.nodes.length = g.nodes.length ∧
  ∀ (i : Nat) (n : Node), g.nodes[i]? = some n → ∃ n' : Node, g'.nodes[i]? = some n' ∧
    n'.index = n.index ∧ n'.node_type = n.node_type ∧ n'.level = n.level

theorem sameShape_refl (g : CompGraph) : sameShape g g :=
  ⟨rfl, rfl, rfl, rfl, fun _ n h => ⟨n, h, rfl, rfl, rfl⟩⟩

theorem sameShape_trans {g1 g2 g3 : CompGraph}
    (h12 : sameShape g1 g2) (h23 : sameShape g2 g3) : sameShape g1 g3 := by
  obtain ⟨hc, hh, hl, hn, hs⟩ := h12
  obtain ⟨hc', hh', hl', hn', hs'⟩ := h23
  refine ⟨hc'.trans hc, hh'.trans hh, hl'.trans hl, hn'.trans hn, fun i n h => ?_⟩
  obtain ⟨n2, h2, e1, e2, e3⟩ := hs i n h
  obtain ⟨n3, h3, f1, f2, f3⟩ := hs' i n2 h2
  exact ⟨n3, h3, f1.trans e1, f2.trans e2, f3.trans e3⟩

theorem sameShape_setValue (g : CompGraph) (i v : Nat) :
    sameShape g (g.setValue i v) := by
  refine ⟨rfl, rfl, rfl, setValue_nodes_length g i v, fun j n h => ?_⟩
  by_cases hji : j = i
  · subst hji
    refine ⟨n.set_value v, ?_, rfl, rfl, rfl⟩
    show (setCell g.nodes j v)[j]? = some (n.set_value v)
    rw [setCell_get_self, h]
    rfl
  · exact ⟨n, by simpa [CompGraph.setValue] using (setCell_get_ne g.nodes i v j hji).trans h,
      rfl, rfl, rfl⟩

theorem sameShape_rev {g g' : CompGraph} (h : sameShape g g')
    {i : Nat} {n' : Node} (hn' : g'.nodes[i]? = some n') :
    ∃ n, g.nodes[i]? = some n ∧
      n'.index = n.index ∧ n'.node_type = n.node_type ∧ n'.level = n.level := by
  obtain ⟨-, -, -, hn, hs⟩ := h
  have hi : i < g.nodes.length := by
    rcases List.getElem?_eq_some.mp hn' with ⟨hlt, -⟩
    omega
  rcases List.getElem?_eq_some.mpr ⟨hi, rfl⟩ with hg
  obtain ⟨n2, h2, e1, e2, e3⟩ := hs i _ hg
  rw [hn'] at h2
  cases h2
  exact ⟨_, hg, e1, e2, e3⟩

/-! ### Behaviour of the recursive resolver -/

theorem get_value_of_node {g : CompGraph} {i : Nat} {n : Node}
    (h : g.nodes[i]? = some n) : g.get_value i = n.get_value := by
  simp [CompGraph.get_value, h]

theorem fill_node_shape (asg : List (Nat × Nat)) (fuel : Nat) :
    ∀ (g : CompGraph) (i v : Nat) (g' : CompGraph),
      fill_node g fuel i asg = .ok (v, g') → sameShape g g' := by
  induction fuel with
  | zero => intro g i v g' h; simp [fill_node] at h
  | succ fuel ih =>
    intro g i v g' h
    simp only [fill_node] at h
    cases heq : g.nodes[i]? with
    | none =>
      simp only [heq] at h
      exact Except.noConfusion h
    | some node =>
      simp only [heq] at h
      cases hv : node.get_value with
      | some val =>
        simp only [hv] at h
        simp only [Except.ok.injEq, Prod.mk.injEq] at h
        obtain ⟨rfl, rfl⟩ := h
        exact sameShape_refl g
      | none =>
        simp only [hv] at h
        cases ht : node.node_type with
        | constant val =>
          simp only [ht] at h
          simp only [Except.ok.injEq, Prod.mk.injEq] at h
          obtain ⟨rfl, rfl⟩ := h
          exact sameShape_setValue g i val
        | input =>
          simp only [ht] at h
          cases ha : lookupAsg asg i with
          | none =>
            simp only [ha] at h
            exact Except.noConfusion h
          | some w =>
            simp only [ha] at h
            simp only [Except.ok.injEq, Prod.mk.injEq] at h
            obtain ⟨rfl, rfl⟩ := h
            exact sameShape_setValue g i w
        | derived l r op =>
          simp only [ht] at h
          cases h1 : fill_node g fuel l asg with
          | error e =>
            simp only [h1] at h
            exact Except.noConfusion h
          | ok p =>
            obtain ⟨lv, g1⟩ := p
            simp only [h1] at h
            cases h2 : fill_node g1 fuel r asg with
            | error e =>
              simp only [h2] at h
              exact Except.noConfusion h
            | ok q =>
              obtain ⟨rv, g2⟩ := q
              simp only [h2] at h
              simp only [Except.ok.injEq, Prod.mk.injEq] at h
              obtain ⟨rfl, rfl⟩ := h
              exact sameShape_trans (sameShape_trans (ih g l lv g1 h1) (ih g1 r rv g2 h2))
                (sameShape_setValue g2 i _)
        | hint d =>
          simp only [ht] at h
          cases h1 : fill_node g fuel d asg with
          | error e =>
            simp only [h1] at h
            exact Except.noConfusion h
          | ok p =>
            obtain ⟨dv, g1⟩ := p
            simp only [h1] at h
            cases hf : lookupFn g1.hints i with
            | none =>
              simp only [hf] at h
              exact Except.noConfusion h
            | some f =>
              simp only [hf] at h
              cases hr : f dv with
              | error e =>
                simp only [hr] at h
                exact Except.noConfusion h
              | ok w =>
                simp only [hr] at h
                simp only [Except.ok.injEq, Prod.mk.injEq] at h
                obtain ⟨rfl, rfl⟩ := h
                exact sameShape_trans (ih g d dv g1 h1) (sameShape_setValue g1 i w)

theorem fill_node_mono (asg : List (Nat × Nat)) (fuel : Nat) :
    ∀ (g : CompGraph) (i v : Nat) (g' : CompGraph),
      fill_node g fuel i asg = .ok (v, g') →
      ∀ (j w : Nat), g.get_value j = some w → g'.get_value j = some w := by
  induction fuel with
  | zero => intro g i v g' h; simp [fill_node] at h
  | succ fuel ih =>
    intro g i v g' h
    simp only [fill_node] at h
    cases heq : g.nodes[i]? with
    | none =>
      simp only [heq] at h
      exact Except.noConfusion h
    | some node =>
      simp only [heq] at h
      cases hv : node.get_value with
      | some val =>
        simp only [hv] at h
        simp only [Except.ok.injEq, Prod.mk.injEq] at h
        obtain ⟨rfl, rfl⟩ := h
        exact fun j w hjw => hjw
      | none =>
        simp only [hv] at h
        cases ht : node.node_type with
        | constant val =>
          simp only [ht] at h
          simp only [Except.ok.injEq, Prod.mk.injEq] at h
          obtain ⟨rfl, rfl⟩ := h
          intro j w hjw
          by_cases hji : j = i
          · subst hji
            rw [get_value_of_node heq, hv] at hjw
            exact Option.noConfusion hjw
          · rw [get_value_setValue_ne g i val j hji]
            exact hjw
        | input =>
          simp only [ht] at h
          cases ha : lookupAsg asg i with
          | none =>
            simp only [ha] at h
            exact Except.noConfusion h
          | some u =>
            simp only [ha] at h
            simp only [Except.ok.injEq, Prod.mk.injEq] at h
            obtain ⟨rfl, rfl⟩ := h
            intro j w hjw
            by_cases hji : j = i
            · subst hji
              rw [get_value_of_node heq, hv] at hjw
              exact Option.noConfusion hjw
            · rw [get_value_setValue_ne g i u j hji]
              exact hjw
        | derived l r op =>
          simp only [ht] at h
          cases h1 : fill_node g fuel l asg with
          | error e =>
            simp only [h1] at h
            exact Except.noConfusion h
          | ok p =>
            obtain ⟨lv, g1⟩ := p
            simp only [h1] at h
            cases h2 : fill_node g1 fuel r asg with
            | error e =>
              simp only [h2] at h
              exact Except.noConfusion h
            | ok q =>
              obtain ⟨rv, g2⟩ := q
              simp only [h2] at h
              simp only [Except.ok.injEq, Prod.mk.injEq] at h
              obtain ⟨rfl, rfl⟩ := h
              intro j w hjw
              have h2m := ih g1 r rv g2 h2 j w (ih g l lv g1 h1 j w hjw)
              by_cases hji : j = i
              · subst hji
                rw [get_value_of_node heq, hv] at hjw
                exact Option.noConfusion hjw
              · rw [get_value_setValue_ne g2 i _ j hji]
                exact h2m
        | hint d =>
          simp only [ht] at h
          cases h1 : fill_node g fuel d asg with
          | error e =>
            simp only [h1] at h
            exact Except.noConfusion h
          | ok p =>
            obtain ⟨dv, g1⟩ := p
            simp only [h1] at h
            cases hf : lookupFn g1.hints i with
            | none =>
              simp only [hf] at h
              exact Except.noConfusion h
            | some f =>
              simp only [hf] at h
              cases hr : f dv with
              | error e =>
                simp only [hr] at h
                exact Except.noConfusion h
              | ok u =>
                simp only [hr] at h
                simp only [Except.ok.injEq, Prod.mk.injEq] at h
                obtain ⟨rfl, rfl⟩ := h
                intro j w hjw
                have h1m := ih g d dv g1 h1 j w hjw
                by_cases hji : j = i
                · subst hji
                  rw [get_value_of_node heq, hv] at hjw
                  exact Option.noConfusion hjw
                · rw [get_value_setValue_ne g1 i u j hji]
                  exact h1m

theorem fill_node_sets (asg : List (Nat × Nat)) (fuel : Nat) :
    ∀ (g : CompGraph) (i v : Nat) (g' : CompGraph),
      fill_node g fuel i asg = .ok (v, g') → g'.get_value i = some v := by
  induction fuel with
  | zero => intro g i v g' h; simp [fill_node] at h
  | succ fuel ih =>
    intro g i v g' h
    simp only [fill_node] at h
    cases heq : g.nodes[i]? with
    | none =>
      simp only [heq] at h
      exact Except.noConfusion h
    | some node =>
      have hi : i < g.nodes.length := (List.getElem?_eq_some.mp heq).1
      simp only [heq] at h
      cases hv : node.get_value with
      | some val =>
        simp only [hv] at h
        simp only [Except.ok.injEq, Prod.mk.injEq] at h
        obtain ⟨rfl, rfl⟩ := h
        rw [get_value_of_node heq, hv]
      | none =>
        simp only [hv] at h
        cases ht : node.node_type with
        | constant val =>
          simp only [ht] at h
          simp only [Except.ok.injEq, Prod.mk.injEq] at h
          obtain ⟨rfl, rfl⟩ := h
          exact get_value_setValue_self g i val hi
        | input =>
          simp only [ht] at h
          cases ha : lookupAsg asg i with
          | none =>
            simp only [ha] at h
            exact Except.noConfusion h
          | some u =>
            simp only [ha] at h
            simp only [Except.ok.injEq, Prod.mk.injEq] at h
            obtain ⟨rfl, rfl⟩ := h
            exact get_value_setValue_self g i u hi
        | derived l r op =>
          simp only [ht] at h
          cases h1 : fill_node g fuel l asg with
          | error e =>
            simp only [h1] at h
            exact Except.noConfusion h
          | ok p =>
            obtain ⟨lv, g1⟩ := p
            simp only [h1] at h
            cases h2 : fill_node g1 fuel r asg with
            | error e =>
              simp only [h2] at h
              exact Except.noConfusion h
            | ok q =>
              obtain ⟨rv, g2⟩ := q
              simp only [h2] at h
              simp only [Except.ok.injEq, Prod.mk.injEq] at h
              obtain ⟨rfl, rfl⟩ := h
              have e1 := (fill_node_shape asg fuel g l lv g1 h1).2.2.2.1
              have e2 := (fill_node_shape asg fuel g1 r rv g2 h2).2.2.2.1
              exact get_value_setValue_self g2 i _ (by omega)
        | hint d =>
          simp only [ht] at h
          cases h1 : fill_node g fuel d asg with
          | error e =>
            simp only [h1] at h
            exact Except.noConfusion h
          | ok p =>
            obtain ⟨dv, g1⟩ := p
            simp only [h1] at h
            cases hf : lookupFn g1.hints i with
            | none =>
              simp only [hf] at h
              exact Except.noConfusion h
            | some f =>
              simp only [hf] at h
              cases hr : f dv with
              | error e =>
                simp only [hr] at h
                exact Except.noConfusion h
              | ok u =>
                simp only [hr] at h
                simp only [Except.ok.injEq, Prod.mk.injEq] at h
                obtain ⟨rfl, rfl⟩ := h
                have e1 := (fill_node_shape asg fuel g d dv g1 h1).2.2.2.1
                exact get_value_setValue_self g1 i u (by omega)

/-- Every dependency index of a node is strictly below the node's own index,
which holds by construction for builder-produced graphs. -/
def DepsLT (g : CompGraph) : Prop :=
  ∀ (i : Nat) (n : Node), g.nodes[i]? = some n →
    (∀ l r op, n.node_type = NodeType.derived l r op → l < i ∧ r < i) ∧
    (∀ d, n.node_type = NodeType.hint d → d < i)

theorem sameShape_depsLT {g g' : CompGraph} (hs : sameShape g g') (hd : DepsLT g) :
    DepsLT g' := by
  intro i n' hn'
  obtain ⟨n, hn, -, ht, -⟩ := sameShape_rev hs hn'
  constructor
  · intro l r op h
    exact (hd i n hn).1 l r op (ht.symm.trans h)
  · intro d h
    exact (hd i n hn).2 d (ht.symm.trans h)

theorem setValue_nodes_get_self {g : CompGraph} {i : Nat} {n : Node} (v : Nat)
    (h : g.nodes[i]? = some n) :
    (g.setValue i v).nodes[i]? = some (n.set_value v) := by
  show (setCell g.nodes i v)[i]? = _
  rw [setCell_get_self, h]
  rfl

theorem setValue_nodes_get_ne (g : CompGraph) (i v j : Nat) (h : j ≠ i) :
    (g.setValue i v).nodes[j]? = g.nodes[j]? :=
  setCell_get_ne g.nodes i v j h

theorem shape_node_type {g g' : CompGraph} (hs : sameShape g g') {i : Nat} {n n' : Node}
    (h : g.nodes[i]? = some n) (h' : g'.nodes[i]? = some n') :
    n'.node_type = n.node_type := by
  obtain ⟨n2, h2, -, ht, -⟩ := hs.2.2.2.2 i n h
  rw [h'] at h2
  cases h2
  exact ht

theorem fill_node_untouched (asg : List (Nat × Nat)) (fuel : Nat) :
    ∀ (g : CompGraph) (i v : Nat) (g' : CompGraph), DepsLT g →
      fill_node g fuel i asg = .ok (v, g') →
      ∀ j, i < j → g'.get_value j = g.get_value j := by
  induction fuel with
  | zero => intro g i v g' _ h; simp [fill_node] at h
  | succ fuel ih =>
    intro g i v g' hd h
    simp only [fill_node] at h
    cases heq : g.nodes[i]? with
    | none =>
      simp only [heq] at h
      exact Except.noConfusion h
    | some node =>
      simp only [heq] at h
      cases hv : node.get_value with
      | some val =>
        simp only [hv] at h
        simp only [Except.ok.injEq, Prod.mk.injEq] at h
        obtain ⟨rfl, rfl⟩ := h
        exact fun j _ => rfl
      | none =>
        simp only [hv] at h
        cases ht : node.node_type with
        | constant val =>
          simp only [ht] at h
          simp only [Except.ok.injEq, Prod.mk.injEq] at h
          obtain ⟨rfl, rfl⟩ := h
          intro j hj
          exact get_value_setValue_ne g i val j (by omega)
        | input =>
          simp only [ht] at h
          cases ha : lookupAsg asg i with
          | none =>
            simp only [ha] at h
            exact Except.noConfusion h
          | some u =>
            simp only [ha] at h
            simp only [Except.ok.injEq, Prod.mk.injEq] at h
            obtain ⟨rfl, rfl⟩ := h
            intro j hj
            exact get_value_setValue_ne g i u j (by omega)
        | derived l r op =>
          obtain ⟨hl, hr⟩ := (hd i node heq).1 l r op ht
          simp only [ht] at h
          cases h1 : fill_node g fuel l asg with
          | error e =>
            simp only [h1] at h
            exact Except.noConfusion h
          | ok p =>
            obtain ⟨lv, g1⟩ := p
            simp only [h1] at h
            have hd1 : DepsLT g1 := sameShape_depsLT (fill_node_shape asg fuel g l lv g1 h1) hd
            cases h2 : fill_node g1 fuel r asg with
            | error e =>
              simp only [h2] at h
              exact Except.noConfusion h
            | ok q =>
              obtain ⟨rv, g2⟩ := q
              simp only [h2] at h
              simp only [Except.ok.injEq, Prod.mk.injEq] at h
              obtain ⟨rfl, rfl⟩ := h
              intro j hj
              rw [get_value_setValue_ne g2 i _ j (by omega),
                ih g1 r rv g2 hd1 h2 j (by omega), ih g l lv g1 hd h1 j (by omega)]
        | hint d =>
          have hdep := (hd i node heq).2 d ht
          simp only [ht] at h
          cases h1 : fill_node g fuel d asg with
          | error e =>
            simp only [h1] at h
            exact Except.noConfusion h
          | ok p =>
            obtain ⟨dv, g1⟩ := p
            simp only [h1] at h
            cases hf : lookupFn g1.hints i with
            | none =>
              simp only [hf] at h
              exact Except.noConfusion h
            | some f =>
              simp only [hf] at h
              cases hr : f dv with
              | error e =>
                simp only [hr] at h
                exact Except.noConfusion h
              | ok u =>
                simp only [hr] at h
                simp only [Except.ok.injEq, Prod.mk.injEq] at h
                obtain ⟨rfl, rfl⟩ := h
                intro j hj
                rw [get_value_setValue_ne g1 i u j (by omega),
                  ih g d dv g1 hd h1 j (by omega)]

/-- Indices that no entry of the input assignment names. -/
def NotSeeded (asg : List (Nat × Nat)) (i : Nat) : Prop :=
  ∀ p ∈ asg, p.1 ≠ i

/-- Every populated Derived cell whose index the assignment does not name holds
the operator applied to its dependencies' current values. -/
def Consistent (asg : List (Nat × Nat)) (g : CompGraph) : Prop :=
  ∀ (j : Nat) (n : Node) (l r : Nat) (op : Operation) (v : Nat),
    g.nodes[j]? = some n → n.node_type = NodeType.derived l r op →
    NotSeeded asg j → n.get_value = some v →
    ∃ vl vr, g.get_value l = some vl ∧ g.get_value r = some vr ∧ v = applyOp op vl vr

theorem consistent_setValue_of_none {asg : List (Nat × Nat)} {g : CompGraph} {i : Nat}
    (w : Nat) (hc : Consistent asg g) (hnone : g.get_value i = none)
    (hnd : ∀ l r op n, g.nodes[i]? = some n → n.node_type ≠ NodeType.derived l r op) :
    Consistent asg (g.setValue i w) := by
  intro j n' l' r' op' v' hn' ht' hns hv'
  by_cases hji : j = i
  · subst hji
    cases heq : g.nodes[j]? with
    | none =>
      have hnone' : (g.setValue j w).nodes[j]? = none := by
        show (setCell g.nodes j w)[j]? = none
        rw [setCell_get_self, heq]
        rfl
      rw [hnone'] at hn'
      exact Option.noConfusion hn'
    | some n =>
      rw [setValue_nodes_get_self w heq] at hn'
      cases hn'
      exact absurd ht' (hnd l' r' op' n heq)
  · rw [setValue_nodes_get_ne g i w j hji] at hn'
    obtain ⟨vl, vr, hvl, hvr, heq⟩ := hc j n' l' r' op' v' hn' ht' hns hv'
    have hl' : l' ≠ i := fun hli => by rw [hli, hnone] at hvl; exact Option.noConfusion hvl
    have hr' : r' ≠ i := fun hri => by rw [hri, hnone] at hvr; exact Option.noConfusion hvr
    exact ⟨vl, vr, by rw [get_value_setValue_ne g i w l' hl']; exact hvl,
      by rw [get_value_setValue_ne g i w r' hr']; exact hvr, heq⟩

theorem fill_node_consistent (asg : List (Nat × Nat)) (fuel : Nat) :
    ∀ (g : CompGraph) (i v : Nat) (g' : CompGraph), DepsLT g → Consistent asg g →
      fill_node g fuel i asg = .ok (v, g') → Consistent asg g' := by
  induction fuel with
  | zero => intro g i v g' _ _ h; simp [fill_node] at h
  | succ fuel ih =>
    intro g i v g' hd hc h
    simp only [fill_node] at h
    cases heq : g.nodes[i]? with
    | none =>
      simp only [heq] at h
      exact Except.noConfusion h
    | some node =>
      simp only [heq] at h
      cases hv : node.get_value with
      | some val =>
        simp only [hv] at h
        simp only [Except.ok.injEq, Prod.mk.injEq] at h
        obtain ⟨rfl, rfl⟩ := h
        exact hc
      | none =>
        have hgnone : g.get_value i = none := by rw [get_value_of_node heq, hv]
        simp only [hv] at h
        cases ht : node.node_type with
        | constant val =>
          simp only [ht] at h
          simp only [Except.ok.injEq, Prod.mk.injEq] at h
          obtain ⟨rfl, rfl⟩ := h
          refine consistent_setValue_of_none val hc hgnone ?_
          intro l r op n hn
          rw [heq] at hn
          cases hn
          rw [ht]
          exact fun hcon => NodeType.noConfusion hcon
        | input =>
          simp only [ht] at h
          cases ha : lookupAsg asg i with
          | none =>
            simp only [ha] at h
            exact Except.noConfusion h
          | some u =>
            simp only [ha] at h
            simp only [Except.ok.injEq, Prod.mk.injEq] at h
            obtain ⟨rfl, rfl⟩ := h
            refine consistent_setValue_of_none u hc hgnone ?_
            intro l r op n hn
            rw [heq] at hn
            cases hn
            rw [ht]
            exact fun hcon => NodeType.noConfusion hcon
        | derived l r op =>
          obtain ⟨hl, hr⟩ := (hd i node heq).1 l r op ht
          simp only [ht] at h
          cases h1 : fill_node g fuel l asg with
          | error e =>
            simp only [h1] at h
            exact Except.noConfusion h
          | ok p =>
            obtain ⟨lv, g1⟩ := p
            simp only [h1] at h
            have hs1 := fill_node_shape asg fuel g l lv g1 h1
            have hd1 : DepsLT g1 := sameShape_depsLT hs1 hd
            have hc1 : Consistent asg g1 := ih g l lv g1 hd hc h1
            cases h2 : fill_node g1 fuel r asg with
            | error e =>
              simp only [h2] at h
              exact Except.noConfusion h
            | ok q =>
              obtain ⟨rv, g2⟩ := q
              simp only [h2] at h
              simp only [Except.ok.injEq, Prod.mk.injEq] at h
              obtain ⟨rfl, rfl⟩ := h
              have hs2 := fill_node_shape asg fuel g1 r rv g2 h2
              have hc2 : Consistent asg g2 := ih g1 r rv g2 hd1 hc1 h2
              -- the cell of `i` is still unset in `g2`
              have hnone2 : g2.get_value i = none := by
                rw [fill_node_untouched asg fuel g1 r rv g2 hd1 h2 i hr,
                  fill_node_untouched asg fuel g l lv g1 hd h1 i hl, hgnone]
              -- the dependencies' values in `g2`
              have hvl2 : g2.get_value l = some lv :=
                fill_node_mono asg fuel g1 r rv g2 h2 l lv (fill_node_sets asg fuel g l lv g1 h1)
              have hvr2 : g2.get_value r = some rv := fill_node_sets asg fuel g1 r rv g2 h2
              intro j n' l' r' op' v' hn' ht' hns hv'
              by_cases hji : j = i
              · subst hji
                obtain ⟨n2, hn2, -⟩ := (sameShape_trans hs1 hs2).2.2.2.2 j node heq
                rw [setValue_nodes_get_self _ hn2] at hn'
                cases hn'
                have htn2 : n2.node_type = NodeType.derived l r op :=
                  (shape_node_type (sameShape_trans hs1 hs2) heq hn2).trans ht
                have ht2 : (n2.set_value (applyOp op lv rv)).node_type = NodeType.derived l r op := htn2
                rw [ht2] at ht'
                obtain ⟨rfl, rfl, rfl⟩ := NodeType.derived.injEq .. |>.mp ht'.symm
                have hv'' : v' = applyOp op' lv rv := by
                  have : (n2.set_value (applyOp op' lv rv)).get_value = some (applyOp op' lv rv) := rfl
                  rw [this] at hv'
                  exact (Option.some.injEq .. |>.mp hv').symm
                refine ⟨lv, rv, ?_, ?_, hv''⟩
                · rw [get_value_setValue_ne g2 j _ l' (by omega)]
                  exact hvl2
                · rw [get_value_setValue_ne g2 j _ r' (by omega)]
                  exact hvr2
              · rw [setValue_nodes_get_ne g2 i _ j hji] at hn'
                obtain ⟨vl, vr, hvl, hvr, heqv⟩ := hc2 j n' l' r' op' v' hn' ht' hns hv'
                have hl' : l' ≠ i := fun hli => by
                  rw [hli, hnone2] at hvl; exact Option.noConfusion hvl
                have hr' : r' ≠ i := fun hri => by
                  rw [hri, hnone2] at hvr; exact Option.noConfusion hvr
                exact ⟨vl, vr, by rw [get_value_setValue_ne g2 i _ l' hl']; exact hvl,
                  by rw [get_value_setValue_ne g2 i _ r' hr']; exact hvr, heqv⟩
        | hint d =>
          have hdep := (hd i node heq).2 d ht
          simp only [ht] at h
          cases h1 : fill_node g fuel d asg with
          | error e =>
            simp only [h1] at h
            exact Except.noConfusion h
          | ok p =>
            obtain ⟨dv, g1⟩ := p
            simp only [h1] at h
            have hs1 := fill_node_shape asg fuel g d dv g1 h1
            have hd1 : DepsLT g1 := sameShape_depsLT hs1 hd
            have hc1 : Consistent asg g1 := ih g d dv g1 hd hc h1
            cases hf : lookupFn g1.hints i with
            | none =>
              simp only [hf] at h
              exact Except.noConfusion h
            | some f =>
              simp only [hf] at h
              cases hrr : f dv with
              | error e =>
                simp only [hrr] at h
                exact Except.noConfusion h
              | ok u =>
                simp only [hrr] at h
                simp only [Except.ok.injEq, Prod.mk.injEq] at h
                obtain ⟨rfl, rfl⟩ := h
                have hnone1 : g1.get_value i = none := by
                  rw [fill_node_untouched asg fuel g d dv g1 hd h1 i hdep, hgnone]
                refine consistent_setValue_of_none u hc1 hnone1 ?_
                intro l r op n hn
                obtain ⟨n2, hn2, -⟩ := hs1.2.2.2.2 i node heq
                rw [hn2] at hn
                cases hn
                have := (shape_node_type hs1 heq hn2).trans ht
                rw [this]
                exact fun hcon => NodeType.noConfusion hcon

/-! ### The level-driven evaluation pass -/

theorem fillLevel_shape (asg : List (Nat × Nat)) :
    ∀ (idxs : List Nat) (g g' : CompGraph),
      fillLevel g idxs asg = .ok g' → sameShape g g' := by
  intro idxs
  induction idxs with
  | nil =>
    intro g g' h
    simp only [fillLevel, Except.ok.injEq] at h
    exact h ▸ sameShape_refl g
  | cons i rest ih =>
    intro g g' h
    simp only [fillLevel] at h
    cases h1 : fill_node g g.nodes.length i asg with
    | error e =>
      simp only [h1] at h
      exact Except.noConfusion h
    | ok p =>
      obtain ⟨v, g1⟩ := p
      simp only [h1] at h
      exact sameShape_trans (fill_node_shape asg g.nodes.length g i v g1 h1) (ih g1 g' h)

theorem fillLevel_mono (asg : List (Nat × Nat)) :
    ∀ (idxs : List Nat) (g g' : CompGraph),
      fillLevel g idxs asg = .ok g' →
      ∀ (j w : Nat), g.get_value j = some w → g'.get_value j = some w := by
  intro idxs
  induction idxs with
  | nil =>
    intro g g' h
    simp only [fillLevel, Except.ok.injEq] at h
    exact h ▸ fun j w hw => hw
  | cons i rest ih =>
    intro g g' h
    simp only [fillLevel] at h
    cases h1 : fill_node g g.nodes.length i asg with
    | error e =>
      simp only [h1] at h
      exact Except.noConfusion h
    | ok p =>
      obtain ⟨v, g1⟩ := p
      simp only [h1] at h
      exact fun j w hw =>
        ih g1 g' h j w (fill_node_mono asg g.nodes.length g i v g1 h1 j w hw)

theorem fillLevel_consistent (asg : List (Nat × Nat)) :
    ∀ (idxs : List Nat) (g g' : CompGraph), DepsLT g → Consistent asg g →
      fillLevel g idxs asg = .ok g' → Consistent asg g' := by
  intro idxs
  induction idxs with
  | nil =>
    intro g g' _ hc h
    simp only [fillLevel, Except.ok.injEq] at h
    exact h ▸ hc
  | cons i rest ih =>
    intro g g' hd hc h
    simp only [fillLevel] at h
    cases h1 : fill_node g g.nodes.length i asg with
    | error e =>
      simp only [h1] at h
      exact Except.noConfusion h
    | ok p =>
      obtain ⟨v, g1⟩ := p
      simp only [h1] at h
      exact ih g1 g'
        (sameShape_depsLT (fill_node_shape asg g.nodes.length g i v g1 h1) hd)
        (fill_node_consistent asg g.nodes.length g i v g1 hd hc h1) h

theorem fillLevel_populates (asg : List (Nat × Nat)) :
    ∀ (idxs : List Nat) (g g' : CompGraph),
      fillLevel g idxs asg = .ok g' →
      ∀ i ∈ idxs, (g'.get_value i).isSome := by
  intro idxs
  induction idxs with
  | nil =>
    intro g g' _ i hi
    exact absurd hi (List.not_mem_nil i)
  | cons i rest ih =>
    intro g g' h j hj
    simp only [fillLevel] at h
    cases h1 : fill_node g g.nodes.length i asg with
    | error e =>
      simp only [h1] at h
      exact Except.noConfusion h
    | ok p =>
      obtain ⟨v, g1⟩ := p
      simp only [h1] at h
      rcases List.mem_cons.mp hj with rfl | hj'
      · have hset := fill_node_sets asg g.nodes.length g j v g1 h1
        have := fillLevel_mono asg rest g1 g' h j v hset
        simp [this]
      · exact ih g1 g' h j hj'

theorem fillLevels_shape (asg : List (Nat × Nat)) :
    ∀ (lvls : List (List Nat)) (g g' : CompGraph),
      fillLevels g lvls asg = .ok g' → sameShape g g' := by
  intro lvls
  induction lvls with
  | nil =>
    intro g g' h
    simp only [fillLevels, Except.ok.injEq] at h
    exact h ▸ sameShape_refl g
  | cons s rest ih =>
    intro g g' h
    simp only [fillLevels] at h
    cases h1 : fillLevel g s asg with
    | error e =>
      simp only [h1] at h
      exact Except.noConfusion h
    | ok g1 =>
      simp only [h1] at h
      exact sameShape_trans (fillLevel_shape asg s g g1 h1) (ih g1 g' h)

theorem fillLevels_mono (asg : List (Nat × Nat)) :
    ∀ (lvls : List (List Nat)) (g g' : CompGraph),
      fillLevels g lvls asg = .ok g' →
      ∀ (j w : Nat), g.get_value j = some w → g'.get_value j = some w := by
  intro lvls
  induction lvls with
  | nil =>
    intro g g' h
    simp only [fillLevels, Except.ok.injEq] at h
    exact h ▸ fun j w hw => hw
  | cons s rest ih =>
    intro g g' h
    simp only [fillLevels] at h
    cases h1 : fillLevel g s asg with
    | error e =>
      simp only [h1] at h
      exact Except.noConfusion h
    | ok g1 =>
      simp only [h1] at h
      exact fun j w hw => ih g1 g' h j w (fillLevel_mono asg s g g1 h1 j w hw)

theorem fillLevels_consistent (asg : List (Nat × Nat)) :
    ∀ (lvls : List (List Nat)) (g g' : CompGraph), DepsLT g → Consistent asg g →
      fillLevels g lvls asg = .ok g' → Consistent asg g' := by
  intro lvls
  induction lvls with
  | nil =>
    intro g g' _ hc h
    simp only [fillLevels, Except.ok.injEq] at h
    exact h ▸ hc
  | cons s rest ih =>
    intro g g' hd hc h
    simp only [fillLevels] at h
    cases h1 : fillLevel g s asg with
    | error e =>
      simp only [h1] at h
      exact Except.noConfusion h
    | ok g1 =>
      simp only [h1] at h
      exact ih g1 g' (sameShape_depsLT (fillLevel_shape asg s g g1 h1) hd)
        (fillLevel_consistent asg s g g1 hd hc h1) h

theorem fillLevels_populates (asg : List (Nat × Nat)) :
    ∀ (lvls : List (List Nat)) (g g' : CompGraph),
      fillLevels g lvls asg = .ok g' →
      ∀ s ∈ lvls, ∀ i ∈ s, (g'.get_value i).isSome := by
  intro lvls
  induction lvls with
  | nil =>
    intro g g' _ s hs
    exact absurd hs (List.not_mem_nil s)
  | cons s rest ih =>
    intro g g' h t ht i hi
    simp only [fillLevels] at h
    cases h1 : fillLevel g s asg with
    | error e =>
      simp only [h1] at h
      exact Except.noConfusion h
    | ok g1 =>
      simp only [h1] at h
      rcases List.mem_cons.mp ht with rfl | ht'
      · obtain ⟨w, hw⟩ := Option.isSome_iff_exists.mp (fillLevel_populates asg t g g1 h1 i hi)
        have := fillLevels_mono asg rest g1 g' h i w hw
        simp [this]
      · exact ih g1 g' h t ht' i hi

/-! ### The seed phase -/

theorem seedInputs_cons (g : CompGraph) (p : Nat × Nat) (rest : List (Nat × Nat)) :
    seedInputs g (p :: rest) =
      seedInputs (if p.1 < g.nodes.length then g.setValue p.1 p.2 else g) rest := rfl

theorem seedInputs_shape : ∀ (asg : List (Nat × Nat)) (g : CompGraph),
    sameShape g (seedInputs g asg) := by
  intro asg
  induction asg with
  | nil => intro g; exact sameShape_refl g
  | cons p rest ih =>
    intro g
    rw [seedInputs_cons]
    by_cases hp : p.1 < g.nodes.length
    · rw [if_pos hp]
      exact sameShape_trans (sameShape_setValue g p.1 p.2) (ih (g.setValue p.1 p.2))
    · rw [if_neg hp]
      exact ih g

theorem seedInputs_get_notSeeded : ∀ (asg : List (Nat × Nat)) (g : CompGraph) (i : Nat),
    NotSeeded asg i → (seedInputs g asg).get_value i = g.get_value i := by
  intro asg
  induction asg with
  | nil => intro g i _; rfl
  | cons p rest ih =>
    intro g i hns
    have hpi : p.1 ≠ i := hns p (List.mem_cons_self p rest)
    have hrest : NotSeeded rest i := fun q hq => hns q (List.mem_cons_of_mem p hq)
    rw [seedInputs_cons]
    by_cases hp : p.1 < g.nodes.length
    · rw [if_pos hp, ih (g.setValue p.1 p.2) i hrest,
        get_value_setValue_ne g p.1 p.2 i (fun hip => hpi hip.symm)]
    · rw [if_neg hp]
      exact ih g i hrest

theorem fill_nodes_ok {g : CompGraph} {asg : List (Nat × Nat)} {g' : CompGraph}
    (h : fill_nodes g asg = .ok g') :
    ∃ g2, fillLevels (seedInputs g asg) (seedInputs g asg).levels asg = .ok g2 ∧
      g' = { g2 with filled := true } := by
  simp only [fill_nodes] at h
  cases h2 : fillLevels (seedInputs g asg) (seedInputs g asg).levels asg with
  | error e =>
    simp only [h2] at h
    exact Except.noConfusion h
  | ok g2 =>
    simp only [h2, Except.ok.injEq] at h
    exact ⟨g2, rfl, h.symm⟩

theorem get_value_filled (g : CompGraph) (i : Nat) :
    CompGraph.get_value { g with filled := true } i = g.get_value i := rfl

/-! ### Structural invariants of builder-produced graphs -/

/-- Initial state of a node's value cell: Constants are pre-filled with their
construction value, everything else is empty. -/
def initCell (n : Node) : Prop :=
  match n.node_type with
  | NodeType.constant v => n.value = some v
  | _ => n.value = none

structure WF (g : CompGraph) : Prop where
  levels_ne : 0 < g.levels.length
  level_lt : ∀ (i : Nat) (n : Node), g.nodes[i]? = some n → n.level < g.levels.length
  deps_lt : DepsLT g
  level_eq : ∀ (i : Nat) (n : Node), g.nodes[i]? = some n →
    (∀ l r op, n.node_type = NodeType.derived l r op →
      n.level = max (g.levelOf l) (g.levelOf r) + 1) ∧
    (∀ d, n.node_type = NodeType.hint d → n.level = g.levelOf d + 1)
  hint_reg : ∀ (i : Nat) (n : Node) (d : Nat), g.nodes[i]? = some n →
    n.node_type = NodeType.hint d → (lookupFn g.hints i).isSome
  covered : ∀ i, i < g.nodes.length →
    ∃ (k : Nat) (s : List Nat), g.levels[k]? = some s ∧ i ∈ s
  init_cells : ∀ (i : Nat) (n : Node), g.nodes[i]? = some n → initCell n

theorem append_one_get {α : Type} (ns : List α) (m : α) (i : Nat) (n : α)
    (h : (ns ++ [m])[i]? = some n) :
    (ns[i]? = some n ∧ i < ns.length) ∨ (i = ns.length ∧ n = m) := by
  rcases Nat.lt_or_ge i ns.length with hi | hi
  · left
    rw [List.getElem?_append, if_pos hi] at h
    exact ⟨h, hi⟩
  · right
    rw [List.getElem?_append_right hi] at h
    cases hd : i - ns.length with
    | zero =>
      rw [hd] at h
      simp only [List.getElem?_cons_zero, Option.some.injEq] at h
      exact ⟨by omega, h.symm⟩
    | succ k =>
      rw [hd] at h
      simp at h

theorem exists_node_of_lt {g : CompGraph} {a : Nat} (h : a < g.nodes.length) :
    ∃ n, g.nodes[a]? = some n :=
  ⟨g.nodes[a], List.getElem?_eq_some.mpr ⟨h, rfl⟩⟩

theorem levelOf_eq {g : CompGraph} {a : Nat} {n : Node} (h : g.nodes[a]? = some n) :
    g.levelOf a = n.level := by
  simp [CompGraph.levelOf, h]

theorem levelInsert_length : ∀ (ls : List (List Nat)) (l j : Nat),
    (levelInsert ls l j).length = ls.length := by
  intro ls
  induction ls with
  | nil => intro l j; cases l <;> rfl
  | cons s rest ih =>
    intro l j
    cases l with
    | zero => rfl
    | succ m => simp [levelInsert, ih]

theorem levelInsert_get : ∀ (ls : List (List Nat)) (l j k : Nat),
    (levelInsert ls l j)[k]? =
      if k = l then (ls[k]?).map (fun s => j :: s) else ls[k]? := by
  intro ls
  induction ls with
  | nil =>
    intro l j k
    cases l <;> simp [levelInsert]
  | cons s rest ih =>
    intro l j k
    cases l with
    | zero =>
      cases k with
      | zero => simp [levelInsert]
      | succ k' => simp [levelInsert]
    | succ m =>
      cases k with
      | zero => simp [levelInsert]
      | succ k' =>
        simp only [levelInsert, List.getElem?_cons_succ]
        rw [ih m j k']
        by_cases hk : k' = m
        · simp [hk]
        · have hk1 : ¬ k' + 1 = m + 1 := by omega
          simp [hk, hk1]

theorem levelInsert_covers {ls : List (List Nat)} {i : Nat} (l j : Nat)
    (h : ∃ (k : Nat) (s : List Nat), ls[k]? = some s ∧ i ∈ s) :
    ∃ (k : Nat) (s : List Nat), (levelInsert ls l j)[k]? = some s ∧ i ∈ s := by
  obtain ⟨k, s, hk, hm⟩ := h
  by_cases hkl : k = l
  · subst hkl
    exact ⟨k, j :: s, by rw [levelInsert_get, if_pos rfl, hk]; rfl,
      List.mem_cons_of_mem j hm⟩
  · exact ⟨k, s, by rw [levelInsert_get, if_neg hkl]; exact hk, hm⟩

theorem levelInsert_self {ls : List (List Nat)} {l : Nat} (j : Nat)
    (h : l < ls.length) :
    ∃ (k : Nat) (s : List Nat), (levelInsert ls l j)[k]? = some s ∧ j ∈ s := by
  obtain ⟨s0, hs0⟩ : ∃ s0, ls[l]? = some s0 :=
    ⟨ls[l], List.getElem?_eq_some.mpr ⟨h, rfl⟩⟩
  exact ⟨l, j :: s0, by rw [levelInsert_get, if_pos rfl, hs0]; rfl,
    List.mem_cons_self j s0⟩

theorem lookupFn_append_isSome {hs : List (Nat × (Nat → Except String Nat))} {i : Nat}
    (e : Nat × (Nat → Except String Nat)) (h : (lookupFn hs i).isSome) :
    (lookupFn (hs ++ [e]) i).isSome := by
  induction hs with
  | nil => simp [lookupFn] at h
  | cons p rest ih =>
    by_cases hp : p.1 = i
    · simp [lookupFn, hp]
    · simp only [lookupFn, hp, if_false] at h
      simp only [List.cons_append, lookupFn, hp, if_false]
      exact ih h

theorem lookupFn_append_self (hs : List (Nat × (Nat → Except String Nat))) (i : Nat)
    (f : Nat → Except String Nat) :
    (lookupFn (hs ++ [(i, f)]) i).isSome := by
  induction hs with
  | nil => simp [lookupFn]
  | cons p rest ih =>
    by_cases hp : p.1 = i
    · simp [lookupFn, hp]
    · simp only [List.cons_append, lookupFn, hp, if_false]
      exact ih

theorem levelOf_nodes_append {g g' : CompGraph} (m : Node)
    (hnodes : g'.nodes = g.nodes ++ [m]) {a : Nat} (ha : a < g.nodes.length) :
    g'.levelOf a = g.levelOf a := by
  simp [CompGraph.levelOf, hnodes, List.getElem?_append, ha]

theorem add_to_level_all (g : CompGraph) (idx level : Nat)
    (hle : level ≤ g.levels.length) :
    (g.add_to_level idx level).nodes = g.nodes ∧
    (g.add_to_level idx level).constraints = g.constraints ∧
    (g.add_to_level idx level).hints = g.hints ∧
    g.levels.length ≤ (g.add_to_level idx level).levels.length ∧
    level < (g.add_to_level idx level).levels.length ∧
    (∀ i, (∃ (k : Nat) (s : List Nat), g.levels[k]? = some s ∧ i ∈ s) →
      ∃ (k : Nat) (s : List Nat), (g.add_to_level idx level).levels[k]? = some s ∧ i ∈ s) ∧
    (∃ (k : Nat) (s : List Nat), (g.add_to_level idx level).levels[k]? = some s ∧ idx ∈ s) := by
  refine ⟨rfl, rfl, rfl, ?_, ?_, ?_, ?_⟩ <;>
    simp only [CompGraph.add_to_level] <;>
    by_cases hc : g.levels.length ≤ level
  · simp [hc, levelInsert_length]
  · simp [hc, levelInsert_length]
  · simp only [if_pos hc]
    rw [levelInsert_length]
    simp only [List.length_append, List.length_singleton]
    omega
  · simp only [if_neg hc]
    rw [levelInsert_length]
    omega
  · intro i hcov
    rw [if_pos hc]
    refine levelInsert_covers level idx ?_
    obtain ⟨k, s, hk, hm⟩ := hcov
    have hklen : k < g.levels.length := (List.getElem?_eq_some.mp hk).1
    exact ⟨k, s, by rw [List.getElem?_append, if_pos hklen]; exact hk, hm⟩
  · intro i hcov
    rw [if_neg hc]
    exact levelInsert_covers level idx hcov
  · rw [if_pos hc]
    refine levelInsert_self idx ?_
    simp only [List.length_append, List.length_singleton]
    omega
  · rw [if_neg hc]
    exact levelInsert_self idx (by omega)

theorem WF_new : WF CompGraph.new := by
  refine ⟨?_, ?_, ?_, ?_, ?_, ?_, ?_⟩
  · simp [CompGraph.new]
  · intro i n h; simp [CompGraph.new] at h
  · intro i n h; simp [CompGraph.new] at h
  · intro i n h; simp [CompGraph.new] at h
  · intro i n d h; simp [CompGraph.new] at h
  · intro i h; simp [CompGraph.new] at h
  · intro i n h; simp [CompGraph.new] at h

theorem WF_extend_level0 (g g2 : CompGraph) (m : Node) (hw : WF g)
    (hnodes : g2.nodes = g.nodes ++ [m])
    (hhints : g2.hints = g.hints)
    (hlevels : g2.levels = levelInsert g.levels 0 g.nodes.length)
    (hlvl : m.level = 0)
    (hnd : (∀ l r op, m.node_type ≠ NodeType.derived l r op) ∧
      (∀ d, m.node_type ≠ NodeType.hint d))
    (hic : initCell m) :
    WF g2 := by
  have hlen : g2.levels.length = g.levels.length := by
    rw [hlevels, levelInsert_length]
  refine ⟨?_, ?_, ?_, ?_, ?_, ?_, ?_⟩
  · rw [hlen]
    exact hw.levels_ne
  · intro i n h
    rw [hnodes] at h
    rw [hlen]
    rcases append_one_get g.nodes m i n h with ⟨ho, -⟩ | ⟨-, rfl⟩
    · exact hw.level_lt i n ho
    · rw [hlvl]
      exact hw.levels_ne
  · intro i n h
    rw [hnodes] at h
    rcases append_one_get g.nodes m i n h with ⟨ho, -⟩ | ⟨-, rfl⟩
    · exact hw.deps_lt i n ho
    · exact ⟨fun l r op hcon => absurd hcon (hnd.1 l r op),
        fun d hcon => absurd hcon (hnd.2 d)⟩
  · intro i n h
    rw [hnodes] at h
    rcases append_one_get g.nodes m i n h with ⟨ho, hi⟩ | ⟨-, rfl⟩
    · obtain ⟨hder, hhint⟩ := hw.level_eq i n ho
      obtain ⟨hdlt, hhlt⟩ := hw.deps_lt i n ho
      constructor
      · intro l r op ht
        obtain ⟨hl, hr⟩ := hdlt l r op ht
        rw [levelOf_nodes_append (g := g) m hnodes (by omega),
          levelOf_nodes_append (g := g) m hnodes (by omega)]
        exact hder l r op ht
      · intro d ht
        have hdi := hhlt d ht
        rw [levelOf_nodes_append (g := g) m hnodes (by omega)]
        exact hhint d ht
    · exact ⟨fun l r op hcon => absurd hcon (hnd.1 l r op),
        fun d hcon => absurd hcon (hnd.2 d)⟩
  · intro i n d h ht
    rw [hnodes] at h
    rw [hhints]
    rcases append_one_get g.nodes m i n h with ⟨ho, -⟩ | ⟨-, rfl⟩
    · exact hw.hint_reg i n d ho ht
    · exact absurd ht (hnd.2 d)
  · intro i hi
    rw [hnodes, List.length_append, List.length_singleton] at hi
    rw [hlevels]
    rcases Nat.lt_or_ge i g.nodes.length with hilt | hige
    · exact levelInsert_covers 0 g.nodes.length (hw.covered i hilt)
    · have hieq : i = g.nodes.length := by omega
      subst hieq
      exact levelInsert_self g.nodes.length hw.levels_ne
  · intro i n h
    rw [hnodes] at h
    rcases append_one_get g.nodes m i n h with ⟨ho, -⟩ | ⟨-, rfl⟩
    · exact hw.init_cells i n ho
    · exact hic

theorem levelOf_congr {g g2 : CompGraph} (h : g2.nodes = g.nodes) (a : Nat) :
    g2.levelOf a = g.levelOf a := by
  simp [CompGraph.levelOf, h]

theorem WF_extend_derived (g g1 g2 : CompGraph) (a b : Nat) (op : Operation) (hw : WF g)
    (ha : a < g.nodes.length) (hb : b < g.nodes.length)
    (hg2 : g2 = g1.add_to_level g.nodes.length (max (g.levelOf a) (g.levelOf b) + 1))
    (hg1nodes : g1.nodes = g.nodes ++ [Node.new g.nodes.length (NodeType.derived a b op)
      (max (g.levelOf a) (g.levelOf b) + 1)])
    (hg1hints : g1.hints = g.hints)
    (hg1levels : g1.levels = g.levels) :
    WF g2 := by
  obtain ⟨na, hna⟩ := exists_node_of_lt ha
  obtain ⟨nb, hnb⟩ := exists_node_of_lt hb
  have hla : g.levelOf a < g.levels.length := by
    rw [levelOf_eq hna]; exact hw.level_lt a na hna
  have hlb : g.levelOf b < g.levels.length := by
    rw [levelOf_eq hnb]; exact hw.level_lt b nb hnb
  have hle : max (g.levelOf a) (g.levelOf b) + 1 ≤ g1.levels.length := by
    rw [hg1levels]; omega
  obtain ⟨hn2, -, hh2, hge, hlt2, hcov2, hself2⟩ :=
    add_to_level_all g1 g.nodes.length (max (g.levelOf a) (g.levelOf b) + 1) hle
  rw [← hg2] at hn2 hge hlt2 hcov2 hself2 hh2
  have hnodes2 : g2.nodes = g.nodes ++ [Node.new g.nodes.length
      (NodeType.derived a b op) (max (g.levelOf a) (g.levelOf b) + 1)] := by
    rw [hn2, hg1nodes]
  have hlen2 : g.levels.length ≤ g2.levels.length := by rw [hg1levels] at hge; exact hge
  refine ⟨?_, ?_, ?_, ?_, ?_, ?_, ?_⟩
  · have := hw.levels_ne
    omega
  · intro i n h
    rw [hnodes2] at h
    rcases append_one_get g.nodes _ i n h with ⟨ho, -⟩ | ⟨-, rfl⟩
    · have := hw.level_lt i n ho
      omega
    · exact hlt2
  · intro i n h
    rw [hnodes2] at h
    rcases append_one_get g.nodes _ i n h with ⟨ho, -⟩ | ⟨hieq, rfl⟩
    · exact hw.deps_lt i n ho
    · subst hieq
      constructor
      · intro l r op' ht
        have ht' : NodeType.derived a b op = NodeType.derived l r op' := ht
        obtain ⟨rfl, rfl, rfl⟩ := NodeType.derived.injEq .. |>.mp ht'
        exact ⟨ha, hb⟩
      · intro d ht
        exact absurd ht (fun hcon => NodeType.noConfusion hcon)
  · intro i n h
    rw [hnodes2] at h
    rcases append_one_get g.nodes _ i n h with ⟨ho, hi⟩ | ⟨-, rfl⟩
    · obtain ⟨hder, hhint⟩ := hw.level_eq i n ho
      obtain ⟨hdlt, hhlt⟩ := hw.deps_lt i n ho
      constructor
      · intro l r op' ht
        obtain ⟨hl, hr⟩ := hdlt l r op' ht
        rw [levelOf_nodes_append (g := g) _ hnodes2 (by omega),
          levelOf_nodes_append (g := g) _ hnodes2 (by omega)]
        exact hder l r op' ht
      · intro d ht
        have hdi := hhlt d ht
        rw [levelOf_nodes_append (g := g) _ hnodes2 (by omega)]
        exact hhint d ht
    · constructor
      · intro l r op' ht
        have ht' : NodeType.derived a b op = NodeType.derived l r op' := ht
        obtain ⟨rfl, rfl, rfl⟩ := NodeType.derived.injEq .. |>.mp ht'
        rw [levelOf_nodes_append (g := g) _ hnodes2 ha,
          levelOf_nodes_append (g := g) _ hnodes2 hb]
        rfl
      · intro d ht
        exact absurd ht (fun hcon => NodeType.noConfusion hcon)
  · intro i n d h ht
    rw [hnodes2] at h
    rw [hh2, hg1hints]
    rcases append_one_get g.nodes _ i n h with ⟨ho, -⟩ | ⟨-, rfl⟩
    · exact hw.hint_reg i n d ho ht
    · exact absurd ht (fun hcon => NodeType.noConfusion hcon)
  · intro i hi
    rw [hnodes2, List.length_append, List.length_singleton] at hi
    rcases Nat.lt_or_ge i g.nodes.length with hilt | hige
    · refine hcov2 i ?_
      rw [hg1levels]
      exact hw.covered i hilt
    · have hieq : i = g.nodes.length := by omega
      subst hieq
      exact hself2
  · intro i n h
    rw [hnodes2] at h
    rcases append_one_get g.nodes _ i n h with ⟨ho, -⟩ | ⟨-, rfl⟩
    · exact hw.init_cells i n ho
    · simp [initCell, Node.new]

theorem WF_extend_hint (g g1 g2 : CompGraph) (d : Nat) (f : Nat → Except String Nat)
    (hw : WF g) (hd : d < g.nodes.length)
    (hg2 : g2 = g1.add_to_level g.nodes.length (g.levelOf d + 1))
    (hg1nodes : g1.nodes = g.nodes ++ [Node.new g.nodes.length (NodeType.hint d)
      (g.levelOf d + 1)])
    (hg1hints : g1.hints = g.hints ++ [(g.nodes.length, f)])
    (hg1levels : g1.levels = g.levels) :
    WF g2 := by
  obtain ⟨nd, hnd⟩ := exists_node_of_lt hd
  have hld : g.levelOf d < g.levels.length := by
    rw [levelOf_eq hnd]; exact hw.level_lt d nd hnd
  have hle : g.levelOf d + 1 ≤ g1.levels.length := by
    rw [hg1levels]; omega
  obtain ⟨hn2, -, hh2, hge, hlt2, hcov2, hself2⟩ :=
    add_to_level_all g1 g.nodes.length (g.levelOf d + 1) hle
  rw [← hg2] at hn2 hge hlt2 hcov2 hself2 hh2
  have hnodes2 : g2.nodes = g.nodes ++ [Node.new g.nodes.length
      (NodeType.hint d) (g.levelOf d + 1)] := by
    rw [hn2, hg1nodes]
  have hhints2 : g2.hints = g.hints ++ [(g.nodes.length, f)] := by
    rw [hh2, hg1hints]
  have hlen2 : g.levels.length ≤ g2.levels.length := by rw [hg1levels] at hge; exact hge
  refine ⟨?_, ?_, ?_, ?_, ?_, ?_, ?_⟩
  · have := hw.levels_ne
    omega
  · intro i n h
    rw [hnodes2] at h
    rcases append_one_get g.nodes _ i n h with ⟨ho, -⟩ | ⟨-, rfl⟩
    · have := hw.level_lt i n ho
      omega
    · exact hlt2
  · intro i n h
    rw [hnodes2] at h
    rcases append_one_get g.nodes _ i n h with ⟨ho, -⟩ | ⟨hieq, rfl⟩
    · exact hw.deps_lt i n ho
    · subst hieq
      constructor
      · intro l r op' ht
        exact absurd ht (fun hcon => NodeType.noConfusion hcon)
      · intro d' ht
        have ht' : NodeType.hint d = NodeType.hint d' := ht
        obtain rfl := NodeType.hint.injEq .. |>.mp ht'
        exact hd
  · intro i n h
    rw [hnodes2] at h
    rcases append_one_get g.nodes _ i n h with ⟨ho, hi⟩ | ⟨-, rfl⟩
    · obtain ⟨hder, hhint⟩ := hw.level_eq i n ho
      obtain ⟨hdlt, hhlt⟩ := hw.deps_lt i n ho
      constructor
      · intro l r op' ht
        obtain ⟨hl, hr⟩ := hdlt l r op' ht
        rw [levelOf_nodes_append (g := g) _ hnodes2 (by omega),
          levelOf_nodes_append (g := g) _ hnodes2 (by omega)]
        exact hder l r op' ht
      · intro d' ht
        have hdi := hhlt d' ht
        rw [levelOf_nodes_append (g := g) _ hnodes2 (by omega)]
        exact hhint d' ht
    · constructor
      · intro l r op' ht
        exact absurd ht (fun hcon => NodeType.noConfusion hcon)
      · intro d' ht
        have ht' : NodeType.hint d = NodeType.hint d' := ht
        obtain rfl := NodeType.hint.injEq .. |>.mp ht'
        rw [levelOf_nodes_append (g := g) _ hnodes2 hd]
        rfl
  · intro i n d' h ht
    rw [hnodes2] at h
    rw [hhints2]
    rcases append_one_get g.nodes _ i n h with ⟨ho, -⟩ | ⟨hieq, rfl⟩
    · exact lookupFn_append_isSome _ (hw.hint_reg i n d' ho ht)
    · subst hieq
      exact lookupFn_append_self g.hints g.nodes.length f
  · intro i hi
    rw [hnodes2, List.length_append, List.length_singleton] at hi
    rcases Nat.lt_or_ge i g.nodes.length with hilt | hige
    · refine hcov2 i ?_
      rw [hg1levels]
      exact hw.covered i hilt
    · have hieq : i = g.nodes.length := by omega
      subst hieq
      exact hself2
  · intro i n h
    rw [hnodes2] at h
    rcases append_one_get g.nodes _ i n h with ⟨ho, -⟩ | ⟨-, rfl⟩
    · exact hw.init_cells i n ho
    · simp [initCell, Node.new]

theorem WF_constraints (g g2 : CompGraph) (hw : WF g)
    (hnodes : g2.nodes = g.nodes) (hhints : g2.hints = g.hints)
    (hlevels : g2.levels = g.levels) : WF g2 := by
  refine ⟨?_, ?_, ?_, ?_, ?_, ?_, ?_⟩
  · rw [hlevels]; exact hw.levels_ne
  · intro i n h
    rw [hnodes] at h
    rw [hlevels]
    exact hw.level_lt i n h
  · intro i n h
    rw [hnodes] at h
    exact hw.deps_lt i n h
  · intro i n h
    rw [hnodes] at h
    obtain ⟨hder, hhint⟩ := hw.level_eq i n h
    constructor
    · intro l r op ht
      rw [levelOf_congr hnodes, levelOf_congr hnodes]
      exact hder l r op ht
    · intro d ht
      rw [levelOf_congr hnodes]
      exact hhint d ht
  · intro i n d h ht
    rw [hnodes] at h
    rw [hhints]
    exact hw.hint_reg i n d h ht
  · intro i hi
    rw [hnodes] at hi
    rw [hlevels]
    exact hw.covered i hi
  · intro i n h
    rw [hnodes] at h
    exact hw.init_cells i n h

theorem Built_WF {g : CompGraph} (hb : Built g) : WF g := by
  induction hb with
  | new => exact WF_new
  | init g hb ih =>
    exact WF_extend_level0 g (CompGraph.init g).1
      (Node.new g.nodes.length NodeType.input 0) ih rfl rfl rfl rfl
      ⟨fun l r op hcon => NodeType.noConfusion hcon,
        fun d hcon => NodeType.noConfusion hcon⟩
      (by simp [initCell, Node.new])
  | constant g v hb ih =>
    exact WF_extend_level0 g (CompGraph.constant g v).1
      ((Node.new g.nodes.length (NodeType.constant v) 0).set_value v) ih rfl rfl rfl rfl
      ⟨fun l r op hcon => NodeType.noConfusion hcon,
        fun d hcon => NodeType.noConfusion hcon⟩
      (by simp [initCell, Node.new, Node.set_value])
  | add g g' a b idx hb heq ih =>
    simp only [CompGraph.add] at heq
    by_cases hc : g.nodes.length ≤ a ∨ g.nodes.length ≤ b
    · rw [if_pos hc] at heq
      exact Except.noConfusion heq
    · rw [if_neg hc] at heq
      push_neg at hc
      simp only [Except.ok.injEq, Prod.mk.injEq] at heq
      obtain ⟨rfl, rfl⟩ := heq
      exact WF_extend_derived g _ _ a b Operation.add ih hc.1 hc.2 rfl rfl rfl rfl
  | mul g g' a b idx hb heq ih =>
    simp only [CompGraph.mul] at heq
    by_cases hc : g.nodes.length ≤ a ∨ g.nodes.length ≤ b
    · rw [if_pos hc] at heq
      exact Except.noConfusion heq
    · rw [if_neg hc] at heq
      push_neg at hc
      simp only [Except.ok.injEq, Prod.mk.injEq] at heq
      obtain ⟨rfl, rfl⟩ := heq
      exact WF_extend_derived g _ _ a b Operation.mul ih hc.1 hc.2 rfl rfl rfl rfl
  | assert_equal g g' a b hb heq ih =>
    simp only [CompGraph.assert_equal] at heq
    by_cases hc : g.nodes.length ≤ a ∨ g.nodes.length ≤ b
    · rw [if_pos hc] at heq
      exact Except.noConfusion heq
    · rw [if_neg hc] at heq
      simp only [Except.ok.injEq] at heq
      obtain rfl := heq
      exact WF_constraints g _ ih rfl rfl rfl
  | hintStep g g' d idx f hb heq ih =>
    simp only [CompGraph.hint] at heq
    by_cases hc : g.nodes.length ≤ d
    · rw [if_pos hc] at heq
      exact Except.noConfusion heq
    · rw [if_neg hc] at heq
      push_neg at hc
      simp only [Except.ok.injEq, Prod.mk.injEq] at heq
      obtain ⟨rfl, rfl⟩ := heq
      exact WF_extend_hint g _ _ d f ih hc rfl rfl rfl rfl

/-! ### Consequences for builder-produced graphs -/

theorem initCell_constant {n : Node} {v : Nat} (hic : initCell n)
    (ht : n.node_type = NodeType.constant v) : n.value = some v := by
  unfold initCell at hic
  rw [ht] at hic
  exact hic

theorem initCell_derived {n : Node} {l r : Nat} {op : Operation} (hic : initCell n)
    (ht : n.node_type = NodeType.derived l r op) : n.value = none := by
  unfold initCell at hic
  rw [ht] at hic
  exact hic

theorem built_fill_populates {g : CompGraph} {asg : List (Nat × Nat)} {g' : CompGraph}
    (hb : Built g) (h : fill_nodes g asg = .ok g') :
    ∀ i, i < g'.nodes.length → (g'.get_value i).isSome := by
  obtain ⟨g2, hfl, rfl⟩ := fill_nodes_ok h
  intro i hi
  have hw := Built_WF hb
  have hseed := seedInputs_shape asg g
  have hlen1 : (seedInputs g asg).nodes.length = g.nodes.length := hseed.2.2.2.1
  have hshape2 := fillLevels_shape asg (seedInputs g asg).levels (seedInputs g asg) g2 hfl
  have hlen2 : g2.nodes.length = (seedInputs g asg).nodes.length := hshape2.2.2.2.1
  have hi2 : i < g.nodes.length := by
    have hfe : ({ g2 with filled := true } : CompGraph).nodes.length = g2.nodes.length := rfl
    omega
  obtain ⟨k, s, hk, hm⟩ := hw.covered i hi2
  have hlvls : (seedInputs g asg).levels = g.levels := hseed.2.2.1
  have hsmem : s ∈ (seedInputs g asg).levels := by
    rw [hlvls]
    exact List.getElem?_mem hk
  have := fillLevels_populates asg (seedInputs g asg).levels (seedInputs g asg) g2 hfl
    s hsmem i hm
  rw [show ({ g2 with filled := true } : CompGraph).get_value i = g2.get_value i from rfl]
  exact this

theorem built_fill_consistent {g : CompGraph} {asg : List (Nat × Nat)} {g' : CompGraph}
    (hb : Built g) (h : fill_nodes g asg = .ok g') :
    Consistent asg g' := by
  obtain ⟨g2, hfl, rfl⟩ := fill_nodes_ok h
  have hw := Built_WF hb
  have hseed := seedInputs_shape asg g
  have hd1 : DepsLT (seedInputs g asg) := sameShape_depsLT hseed hw.deps_lt
  have hc1 : Consistent asg (seedInputs g asg) := by
    intro j n l r op v hn ht hns hv
    obtain ⟨n0, hn0, -, ht0, -⟩ := sameShape_rev hseed hn
    have hg0 : g.get_value j = none := by
      rw [get_value_of_node hn0]
      exact initCell_derived (hw.init_cells j n0 hn0) (ht0.symm.trans ht)
    have hseedj := seedInputs_get_notSeeded asg g j hns
    rw [get_value_of_node hn, hv, hg0] at hseedj
    exact Option.noConfusion hseedj
  have hcons2 := fillLevels_consistent asg (seedInputs g asg).levels
    (seedInputs g asg) g2 hd1 hc1 hfl
  exact hcons2

theorem built_fill_constant {g : CompGraph} {asg : List (Nat × Nat)} {g' : CompGraph}
    {i v : Nat} {n : Node} (hb : Built g)
    (hn : g.nodes[i]? = some n) (ht : n.node_type = NodeType.constant v)
    (hns : NotSeeded asg i) (h : fill_nodes g asg = .ok g') :
    g'.get_value i = some v := by
  obtain ⟨g2, hfl, rfl⟩ := fill_nodes_ok h
  have hw := Built_WF hb
  have hv : g.get_value i = some v := by
    rw [get_value_of_node hn]
    exact initCell_constant (hw.init_cells i n hn) ht
  have hv1 : (seedInputs g asg).get_value i = some v := by
    rw [seedInputs_get_notSeeded asg g i hns]
    exact hv
  exact fillLevels_mono asg (seedInputs g asg).levels (seedInputs g asg) g2 hfl i v hv1

/-- Every Hint node's index has a registered callback. -/
def HintReg (g : CompGraph) : Prop :=
  ∀ (i : Nat) (n : Node) (d : Nat), g.nodes[i]? = some n →
    n.node_type = NodeType.hint d → (lookupFn g.hints i).isSome

theorem sameShape_hintReg {g g' : CompGraph} (hs : sameShape g g') (hr : HintReg g) :
    HintReg g' := by
  intro i n d hn ht
  obtain ⟨n0, hn0, -, ht0, -⟩ := sameShape_rev hs hn
  rw [hs.2.1]
  exact hr i n0 d hn0 (ht0.symm.trans ht)

theorem fill_node_no_hintMissing (asg : List (Nat × Nat)) (fuel : Nat) :
    ∀ (g : CompGraph) (i : Nat), HintReg g →
      fill_node g fuel i asg ≠ .error .hintMissing := by
  induction fuel with
  | zero =>
    intro g i _ hcon
    simp [fill_node] at hcon
  | succ fuel ih =>
    intro g i hr hcon
    simp only [fill_node] at hcon
    cases heq : g.nodes[i]? with
    | none =>
      simp only [heq] at hcon
      injection hcon with hcon'
      exact FillError.noConfusion hcon'
    | some node =>
      simp only [heq] at hcon
      cases hv : node.get_value with
      | some val =>
        simp only [hv] at hcon
        exact Except.noConfusion hcon
      | none =>
        simp only [hv] at hcon
        cases ht : node.node_type with
        | constant val =>
          simp only [ht] at hcon
          exact Except.noConfusion hcon
        | input =>
          simp only [ht] at hcon
          cases ha : lookupAsg asg i with
          | none =>
            simp only [ha] at hcon
            injection hcon with hcon'
            exact FillError.noConfusion hcon'
          | some u =>
            simp only [ha] at hcon
            exact Except.noConfusion hcon
        | derived l r op =>
          simp only [ht] at hcon
          cases h1 : fill_node g fuel l asg with
          | error e =>
            simp only [h1] at hcon
            simp only [Except.error.injEq] at hcon
            rw [hcon] at h1
            exact ih g l hr h1
          | ok p =>
            obtain ⟨lv, g1⟩ := p
            simp only [h1] at hcon
            have hr1 : HintReg g1 :=
              sameShape_hintReg (fill_node_shape asg fuel g l lv g1 h1) hr
            cases h2 : fill_node g1 fuel r asg with
            | error e =>
              simp only [h2] at hcon
              simp only [Except.error.injEq] at hcon
              rw [hcon] at h2
              exact ih g1 r hr1 h2
            | ok q =>
              obtain ⟨rv, g2⟩ := q
              simp only [h2] at hcon
              exact Except.noConfusion hcon
        | hint d =>
          simp only [ht] at hcon
          cases h1 : fill_node g fuel d asg with
          | error e =>
            simp only [h1] at hcon
            simp only [Except.error.injEq] at hcon
            rw [hcon] at h1
            exact ih g d hr h1
          | ok p =>
            obtain ⟨dv, g1⟩ := p
            simp only [h1] at hcon
            cases hf : lookupFn g1.hints i with
            | none =>
              have hs1 := fill_node_shape asg fuel g d dv g1 h1
              have : (lookupFn g1.hints i).isSome := by
                rw [hs1.2.1]
                exact hr i node d heq ht
              rw [hf] at this
              exact Bool.noConfusion this
            | some f =>
              simp only [hf] at hcon
              cases hrr : f dv with
              | error e =>
                simp only [hrr] at hcon
                injection hcon with hcon'
                exact FillError.noConfusion hcon'
              | ok u =>
                simp only [hrr] at hcon
                exact Except.noConfusion hcon

theorem Built_hintReg {g : CompGraph} (hb : Built g) : HintReg g :=
  (Built_WF hb).hint_reg

/-! ### The constraint checker -/

theorem checkAux_ok (g : CompGraph) :
    ∀ (cs : List (Nat × Nat)),
      (∀ p ∈ cs, (g.get_value p.1).isSome ∧ (g.get_value p.2).isSome) →
      ∃ r, checkConstraintsAux g cs = some r ∧
        (r.1 = true ↔ ∀ p ∈ cs, g.get_value p.1 = g.get_value p.2) := by
  intro cs
  induction cs with
  | nil =>
    intro _
    exact ⟨(true, []), rfl, by simp⟩
  | cons c rest ih =>
    intro hpop
    obtain ⟨n1, n2⟩ := c
    obtain ⟨h1, h2⟩ := hpop (n1, n2) (List.mem_cons_self _ _)
    obtain ⟨v1, hv1⟩ := Option.isSome_iff_exists.mp h1
    obtain ⟨v2, hv2⟩ := Option.isSome_iff_exists.mp h2
    obtain ⟨r, hr, hiff⟩ := ih (fun p hp => hpop p (List.mem_cons_of_mem _ hp))
    by_cases hne : v1 = v2
    · refine ⟨r, ?_, ?_⟩
      · simp only [checkConstraintsAux, hv1, hv2, hne]
        simp [hr]
      · rw [hiff]
        constructor
        · intro hrest p hp
          rcases List.mem_cons.mp hp with rfl | hp'
          · rw [hv1, hv2, hne]
          · exact hrest p hp'
        · intro hall p hp
          exact hall p (List.mem_cons_of_mem _ hp)
    · refine ⟨(false, [(n1, v1, n2, v2)]), ?_, ?_⟩
      · simp [checkConstraintsAux, hv1, hv2, hne]
      · simp only [Bool.false_eq_true, false_iff]
        intro hall
        have := hall (n1, n2) (List.mem_cons_self _ _)
        rw [hv1, hv2] at this
        exact hne (Option.some.injEq .. |>.mp this)

theorem checkAux_first_violation (g : CompGraph) :
    ∀ (cs : List (Nat × Nat)),
      (∀ p ∈ cs, (g.get_value p.1).isSome ∧ (g.get_value p.2).isSome) →
      (∃ p ∈ cs, g.get_value p.1 ≠ g.get_value p.2) →
      ∃ (n1 v1 n2 v2 : Nat) (cs1 cs2 : List (Nat × Nat)),
        cs = cs1 ++ (n1, n2) :: cs2 ∧
        (∀ p ∈ cs1, g.get_value p.1 = g.get_value p.2) ∧
        g.get_value n1 = some v1 ∧ g.get_value n2 = some v2 ∧ v1 ≠ v2 ∧
        checkConstraintsAux g cs = some (false, [(n1, v1, n2, v2)]) := by
  intro cs
  induction cs with
  | nil =>
    intro _ hviol
    obtain ⟨p, hp, -⟩ := hviol
    exact absurd hp (List.not_mem_nil p)
  | cons c rest ih =>
    intro hpop hviol
    obtain ⟨n1, n2⟩ := c
    obtain ⟨h1, h2⟩ := hpop (n1, n2) (List.mem_cons_self _ _)
    obtain ⟨v1, hv1⟩ := Option.isSome_iff_exists.mp h1
    obtain ⟨v2, hv2⟩ := Option.isSome_iff_exists.mp h2
    by_cases hne : v1 = v2
    · have hhead : CompGraph.get_value g n1 = g.get_value n2 := by rw [hv1, hv2, hne]
      have hviol' : ∃ p ∈ rest, g.get_value p.1 ≠ g.get_value p.2 := by
        obtain ⟨p, hp, hv⟩ := hviol
        rcases List.mem_cons.mp hp with rfl | hp'
        · exact absurd hhead hv
        · exact ⟨p, hp', hv⟩
      obtain ⟨m1, w1, m2, w2, cs1, cs2, hsplit, hpre, hw1, hw2, hwne, hres⟩ :=
        ih (fun p hp => hpop p (List.mem_cons_of_mem _ hp)) hviol'
      refine ⟨m1, w1, m2, w2, (n1, n2) :: cs1, cs2, ?_, ?_, hw1, hw2, hwne, ?_⟩
      · rw [List.cons_append, hsplit]
      · intro p hp
        rcases List.mem_cons.mp hp with rfl | hp'
        · exact hhead
        · exact hpre p hp'
      · simp only [checkConstraintsAux, hv1, hv2, hne]
        simp [hres]
    · refine ⟨n1, v1, n2, v2, [], rest, rfl,
        fun p hp => absurd hp (List.not_mem_nil p), hv1, hv2, hne, ?_⟩
      simp [checkConstraintsAux, hv1, hv2, hne]

/-! ### Assignment entries at nonexistent indices are inert -/

theorem lookupAsg_filter (n : Nat) :
    ∀ (asg : List (Nat × Nat)) (j : Nat), j < n →
      lookupAsg (asg.filter (fun p => p.1 < n)) j = lookupAsg asg j := by
  intro asg
  induction asg with
  | nil => intro j _; rfl
  | cons p rest ih =>
    intro j hj
    by_cases hp : p.1 < n
    · rw [List.filter_cons, if_pos (by simpa using hp)]
      by_cases hpj : p.1 = j
      · simp [lookupAsg, hpj]
      · simp only [lookupAsg, hpj, if_false]
        exact ih j hj
    · rw [List.filter_cons, if_neg (by simpa using hp)]
      have hpj : p.1 ≠ j := by omega
      simp only [lookupAsg, hpj, if_false]
      exact ih j hj

theorem seedInputs_filter (n : Nat) :
    ∀ (asg : List (Nat × Nat)) (g : CompGraph), g.nodes.length = n →
      seedInputs g asg = seedInputs g (asg.filter (fun p => p.1 < n)) := by
  intro asg
  induction asg with
  | nil => intro g _; rfl
  | cons p rest ih =>
    intro g hlen
    by_cases hp : p.1 < n
    · rw [List.filter_cons, if_pos (by simpa using hp), seedInputs_cons, seedInputs_cons]
      have hq : p.1 < g.nodes.length := by omega
      rw [if_pos hq]
      exact ih (g.setValue p.1 p.2) (by rw [setValue_nodes_length, hlen])
    · rw [List.filter_cons, if_neg (by simpa using hp), seedInputs_cons]
      have hq : ¬ p.1 < g.nodes.length := by omega
      rw [if_neg hq]
      exact ih g hlen

theorem fill_node_step_missing {g : CompGraph} {i : Nat} (asg : List (Nat × Nat))
    (fuel : Nat) (h : g.nodes[i]? = none) :
    fill_node g (fuel + 1) i asg = .error .nodeMissing := by
  simp [fill_node, h]

theorem fill_node_step_memo {g : CompGraph} {i val : Nat} {node : Node}
    (asg : List (Nat × Nat)) (fuel : Nat) (h : g.nodes[i]? = some node)
    (hv : node.get_value = some val) :
    fill_node g (fuel + 1) i asg = .ok (val, g) := by
  simp [fill_node, h, hv]

theorem fill_node_step_constant {g : CompGraph} {i val : Nat} {node : Node}
    (asg : List (Nat × Nat)) (fuel : Nat) (h : g.nodes[i]? = some node)
    (hv : node.get_value = none) (ht : node.node_type = NodeType.constant val) :
    fill_node g (fuel + 1) i asg = .ok (val, g.setValue i val) := by
  simp [fill_node, h, hv, ht]

theorem fill_node_step_input {g : CompGraph} {i : Nat} {node : Node}
    (asg : List (Nat × Nat)) (fuel : Nat) (h : g.nodes[i]? = some node)
    (hv : node.get_value = none) (ht : node.node_type = NodeType.input) :
    fill_node g (fuel + 1) i asg =
      match lookupAsg asg i with
      | none => .error .inputMissing
      | some v => .ok (v, g.setValue i v) := by
  simp [fill_node, h, hv, ht]

theorem fill_node_step_derived {g : CompGraph} {i : Nat} {node : Node} {l r : Nat}
    {op : Operation} (asg : List (Nat × Nat)) (fuel : Nat) (h : g.nodes[i]? = some node)
    (hv : node.get_value = none) (ht : node.node_type = NodeType.derived l r op) :
    fill_node g (fuel + 1) i asg =
      match fill_node g fuel l asg with
      | .error e => .error e
      | .ok (lv, g1) =>
        match fill_node g1 fuel r asg with
        | .error e => .error e
        | .ok (rv, g2) => .ok (applyOp op lv rv, g2.setValue i (applyOp op lv rv)) := by
  simp [fill_node, h, hv, ht]

theorem fill_node_step_hint {g : CompGraph} {i : Nat} {node : Node} {d : Nat}
    (asg : List (Nat × Nat)) (fuel : Nat) (h : g.nodes[i]? = some node)
    (hv : node.get_value = none) (ht : node.node_type = NodeType.hint d) :
    fill_node g (fuel + 1) i asg =
      match fill_node g fuel d asg with
      | .error e => .error e
      | .ok (dv, g1) =>
        match lookupFn g1.hints i with
        | none => .error .hintMissing
        | some f =>
          match f dv with
          | .ok val => .ok (val, g1.setValue i val)
          | .error err => .error (.hintFailed err) := by
  simp [fill_node, h, hv, ht]

theorem fill_node_asg_congr (n : Nat) (asg asg' : List (Nat × Nat))
    (hagree : ∀ j, j < n → lookupAsg asg j = lookupAsg asg' j) (fuel : Nat) :
    ∀ (g : CompGraph) (i : Nat), g.nodes.length = n →
      fill_node g fuel i asg = fill_node g fuel i asg' := by
  induction fuel with
  | zero => intro g i _; rfl
  | succ fuel ih =>
    intro g i hlen
    cases heq : g.nodes[i]? with
    | none => rw [fill_node_step_missing asg fuel heq, fill_node_step_missing asg' fuel heq]
    | some node =>
      cases hv : node.get_value with
      | some val =>
        rw [fill_node_step_memo asg fuel heq hv, fill_node_step_memo asg' fuel heq hv]
      | none =>
        cases ht : node.node_type with
        | constant val =>
          rw [fill_node_step_constant asg fuel heq hv ht,
            fill_node_step_constant asg' fuel heq hv ht]
        | input =>
          have hi : i < n := by
            have := (List.getElem?_eq_some.mp heq).1
            omega
          rw [fill_node_step_input asg fuel heq hv ht,
            fill_node_step_input asg' fuel heq hv ht, hagree i hi]
        | derived l r op =>
          rw [fill_node_step_derived asg fuel heq hv ht,
            fill_node_step_derived asg' fuel heq hv ht, ih g l hlen]
          cases h1 : fill_node g fuel l asg' with
          | error e => rfl
          | ok p =>
            obtain ⟨lv, g1⟩ := p
            have hlen1 : g1.nodes.length = n := by
              rw [(fill_node_shape asg' fuel g l lv g1 h1).2.2.2.1, hlen]
            simp only [ih g1 r hlen1]
        | hint d =>
          rw [fill_node_step_hint asg fuel heq hv ht,
            fill_node_step_hint asg' fuel heq hv ht, ih g d hlen]

theorem fillLevel_asg_congr (n : Nat) (asg asg' : List (Nat × Nat))
    (hagree : ∀ j, j < n → lookupAsg asg j = lookupAsg asg' j) :
    ∀ (idxs : List Nat) (g : CompGraph), g.nodes.length = n →
      fillLevel g idxs asg = fillLevel g idxs asg' := by
  intro idxs
  induction idxs with
  | nil => intro g _; rfl
  | cons i rest ih =>
    intro g hlen
    simp only [fillLevel]
    rw [fill_node_asg_congr n asg asg' hagree g.nodes.length g i hlen]
    cases h1 : fill_node g g.nodes.length i asg' with
    | error e => rfl
    | ok p =>
      obtain ⟨v, g1⟩ := p
      have hlen1 : g1.nodes.length = n := by
        rw [(fill_node_shape asg' g.nodes.length g i v g1 h1).2.2.2.1, hlen]
      simp only [ih g1 hlen1]

theorem fillLevels_asg_congr (n : Nat) (asg asg' : List (Nat × Nat))
    (hagree : ∀ j, j < n → lookupAsg asg j = lookupAsg asg' j) :
    ∀ (lvls : List (List Nat)) (g : CompGraph), g.nodes.length = n →
      fillLevels g lvls asg = fillLevels g lvls asg' := by
  intro lvls
  induction lvls with
  | nil => intro g _; rfl
  | cons s rest ih =>
    intro g hlen
    simp only [fillLevels]
    rw [fillLevel_asg_congr n asg asg' hagree s g hlen]
    cases h1 : fillLevel g s asg' with
    | error e => rfl
    | ok g1 =>
      have hlen1 : g1.nodes.length = n := by
        rw [(fillLevel_shape asg' s g g1 h1).2.2.2.1, hlen]
      simp only [ih g1 hlen1]

theorem fill_nodes_filter (g : CompGraph) (asg : List (Nat × Nat)) :
    fill_nodes g asg = fill_nodes g (asg.filter (fun p => p.1 < g.nodes.length)) := by
  simp only [fill_nodes]
  rw [← seedInputs_filter g.nodes.length asg g rfl,
    fillLevels_asg_congr g.nodes.length asg (asg.filter (fun p => p.1 < g.nodes.length))
      (fun j hj => (lookupAsg_filter g.nodes.length asg j hj).symm)
      (seedInputs g asg).levels (seedInputs g asg) (seedInputs_shape asg g).2.2.2.1]

/-! ### Concrete example graphs -/

/-- Node 0 is `constant 1`, node 1 is `add 0 0`. -/
def exSeedDerived : CompGraph :=
  match (CompGraph.constant CompGraph.new 1).1.add 0 0 with
  | .ok p => p.1
  | .error _ => CompGraph.new

theorem built_exSeedDerived : Built exSeedDerived :=
  Built.add (CompGraph.constant CompGraph.new 1).1 exSeedDerived 0 0 1
    (Built.constant CompGraph.new 1 Built.new) rfl

/-- Node 0 is `constant 2`, node 1 is `constant 3`, node 2 is `add 0 1`. -/
def exAddChain : CompGraph :=
  match (CompGraph.constant (CompGraph.constant CompGraph.new 2).1 3).1.add 0 1 with
  | .ok p => p.1
  | .error _ => CompGraph.new

theorem built_exAddChain : Built exAddChain :=
  Built.add (CompGraph.constant (CompGraph.constant CompGraph.new 2).1 3).1 exAddChain 0 1 2
    (Built.constant (CompGraph.constant CompGraph.new 2).1 3
      (Built.constant CompGraph.new 2 Built.new)) rfl

/-- A single node 0, `constant 3`. -/
def exConst3 : CompGraph := (CompGraph.constant CompGraph.new 3).1

theorem built_exConst3 : Built exConst3 :=
  Built.constant CompGraph.new 3 Built.new

/-- Nodes `constant 3`, `constant 4`, `constant 5` with the constraints
`assert_equal 0 1` and `assert_equal 0 2`, both violated. -/
def exTwoViolations : CompGraph :=
  match CompGraph.assert_equal
      (match CompGraph.assert_equal
          (CompGraph.constant (CompGraph.constant (CompGraph.constant
            CompGraph.new 3).1 4).1 5).1 0 1 with
        | .ok g => g
        | .error _ => CompGraph.new) 0 2 with
  | .ok g => g
  | .error _ => CompGraph.new

/-- A single Input node 0. -/
def exInputOnly : CompGraph := (CompGraph.init CompGraph.new).1

/-- Node 0 is an Input, node 1 a Hint on it with the identity callback. -/
def exHintChain : CompGraph :=
  match (CompGraph.init CompGraph.new).1.hint 0 (fun v => .ok v) with
  | .ok p => p.1
  | .error _ => CompGraph.new

theorem built_exHintChain : Built exHintChain :=
  Built.hintStep (CompGraph.init CompGraph.new).1 exHintChain 0 1 (fun v => .ok v)
    (Built.init CompGraph.new Built.new) rfl

/-! ### The claims -/

/-- C1, counterexample to the claim as stated: in the graph with node 0
`constant 1` and node 1 `add 0 0`, evaluating under the input assignment that
names the Derived node 1 itself seeds its Value Cell with 5, so after
evaluation its resolved value is 5 and not the sum 1 + 1 = 2 of its
dependencies' resolved values, although that sum fits in 32 bits. -/
theorem c1_counterexample :
    fillValue exSeedDerived [(1, 5)] 1 = some 5 ∧
    fillValue exSeedDerived [(1, 5)] 0 = some 1 ∧
    opExact Operation.add 1 1 = 2 ∧ opExact Operation.add 1 1 < 2 ^ 32 ∧
    (5 : Nat) ≠ 2 := by
  decide

/-- C1 (amended): for every Derived node whose index is named by no entry of
the input assignment, after a successful `fill_nodes` its resolved value
equals the operator applied to its two dependencies' resolved values — `Add`
is unsigned 32-bit addition and `Mul` is unsigned 32-bit multiplication —
under the hypothesis that the exact result fits in 32 bits. -/
theorem c1_derived_value (g g' : CompGraph) (asg : List (Nat × Nat)) (i l r : Nat)
    (op : Operation) (n : Node) (vl vr : Nat)
    (hb : Built g) (hfill : fill_nodes g asg = .ok g')
    (hn : g'.nodes[i]? = some n) (ht : n.node_type = NodeType.derived l r op)
    (hns : NotSeeded asg i)
    (hvl : g'.get_value l = some vl) (hvr : g'.get_value r = some vr)
    (hfits : opExact op vl vr < 2 ^ 32) :
    g'.get_value i = some (opExact op vl vr) := by
  have hpop := built_fill_populates hb hfill i (List.getElem?_eq_some.mp hn).1
  obtain ⟨v, hv⟩ := Option.isSome_iff_exists.mp hpop
  have hnv : n.get_value = some v := by
    rw [← get_value_of_node hn]
    exact hv
  obtain ⟨vl', vr', hvl', hvr', heqv⟩ :=
    built_fill_consistent hb hfill i n l r op v hn ht hns hnv
  rw [hvl] at hvl'
  rw [hvr] at hvr'
  injection hvl' with hvl''
  injection hvr' with hvr''
  subst hvl''
  subst hvr''
  have happ : applyOp op vl vr = opExact op vl vr := by
    cases op with
    | add =>
      simp only [applyOp, opExact] at hfits ⊢
      exact Nat.mod_eq_of_lt hfits
    | mul =>
      simp only [applyOp, opExact] at hfits ⊢
      exact Nat.mod_eq_of_lt hfits
  rw [hv, heqv, happ]

/-- C1 witness: in the graph `constant 2`, `constant 3`, `add 0 1`, the
Derived node 2 resolves to 2 + 3 under the empty assignment. -/
theorem c1_witness :
    (fillResult exAddChain []).get_value 2 = some (opExact Operation.add 2 3) :=
  c1_derived_value exAddChain (fillResult exAddChain []) [] 2 0 1 Operation.add
    (Node.mk 2 (some 5) (NodeType.derived 0 1 Operation.add) 1) 2 3
    built_exAddChain rfl rfl rfl (fun p hp => absurd hp (List.not_mem_nil p))
    rfl rfl (by decide)

/-- C2: if `fill_nodes` on a builder-produced graph returns normally, every
node of the graph — every index below the node count, reachable or not — has
a populated Value Cell. -/
theorem c2_all_populated (g g' : CompGraph) (asg : List (Nat × Nat))
    (hb : Built g) (hfill : fill_nodes g asg = .ok g') :
    ∀ i, i < g'.nodes.length → (g'.get_value i).isSome :=
  built_fill_populates hb hfill

/-- C2 witness at the graph `constant 2`, `constant 3`, `add 0 1` under the
empty assignment. -/
theorem c2_witness : ((fillResult exAddChain []).get_value 2).isSome :=
  c2_all_populated exAddChain (fillResult exAddChain []) [] built_exAddChain rfl 2 (by decide)

/-- C3: when every node named in the constraint sequence has a populated
Value Cell, `check_constraints` runs without a fatal unwrap and its boolean
is true exactly when every constrained pair has equal resolved values. -/
theorem c3_check_iff (g : CompGraph)
    (hpop : ∀ p ∈ g.constraints, (g.get_value p.1).isSome ∧ (g.get_value p.2).isSome) :
    ∃ r, check_constraints g = some r ∧
      (r.1 = true ↔ ∀ p ∈ g.constraints, g.get_value p.1 = g.get_value p.2) :=
  checkAux_ok g g.constraints hpop

/-- C3 witness at the two-violation constants graph. -/
theorem c3_witness :
    ∃ r, check_constraints exTwoViolations = some r ∧
      (r.1 = true ↔ ∀ p ∈ exTwoViolations.constraints,
        exTwoViolations.get_value p.1 = exTwoViolations.get_value p.2) :=
  c3_check_iff exTwoViolations (by decide)

/-- C4: in every builder-produced graph, a Derived node's level is
`max(level left, level right) + 1`, a Hint node's level is
`level dependent + 1`, and consequently every direct dependency lives at a
strictly lower level than the node itself. -/
theorem c4_levels (g : CompGraph) (i : Nat) (n : Node) (hb : Built g)
    (hn : g.nodes[i]? = some n) :
    (∀ l r op, n.node_type = NodeType.derived l r op →
      ∃ nl nr, g.nodes[l]? = some nl ∧ g.nodes[r]? = some nr ∧
        n.level = max nl.level nr.level + 1 ∧ nl.level < n.level ∧ nr.level < n.level) ∧
    (∀ d, n.node_type = NodeType.hint d →
      ∃ nd, g.nodes[d]? = some nd ∧ n.level = nd.level + 1 ∧ nd.level < n.level) := by
  have hw := Built_WF hb
  obtain ⟨hder, hhint⟩ := hw.level_eq i n hn
  obtain ⟨hdlt, hhlt⟩ := hw.deps_lt i n hn
  have hilen : i < g.nodes.length := (List.getElem?_eq_some.mp hn).1
  constructor
  · intro l r op ht
    obtain ⟨hl, hr⟩ := hdlt l r op ht
    obtain ⟨nl, hnl⟩ := exists_node_of_lt (show l < g.nodes.length by omega)
    obtain ⟨nr, hnr⟩ := exists_node_of_lt (show r < g.nodes.length by omega)
    have hlev := hder l r op ht
    rw [levelOf_eq hnl, levelOf_eq hnr] at hlev
    exact ⟨nl, nr, hnl, hnr, hlev, by omega, by omega⟩
  · intro d ht
    have hd := hhlt d ht
    obtain ⟨nd, hnd⟩ := exists_node_of_lt (show d < g.nodes.length by omega)
    have hlev := hhint d ht
    rw [levelOf_eq hnd] at hlev
    exact ⟨nd, hnd, hlev, by omega⟩

/-- C4 witness at the Derived node of the graph `constant 2`, `constant 3`,
`add 0 1`. -/
theorem c4_witness :
    (∀ l r op, (Node.mk 2 (none : Option Nat) (NodeType.derived 0 1 Operation.add) 1).node_type
        = NodeType.derived l r op →
      ∃ nl nr, exAddChain.nodes[l]? = some nl ∧ exAddChain.nodes[r]? = some nr ∧
        (Node.mk 2 (none : Option Nat) (NodeType.derived 0 1 Operation.add) 1).level
          = max nl.level nr.level + 1 ∧
        nl.level < (Node.mk 2 (none : Option Nat) (NodeType.derived 0 1 Operation.add) 1).level ∧
        nr.level < (Node.mk 2 (none : Option Nat) (NodeType.derived 0 1 Operation.add) 1).level) ∧
    (∀ d, (Node.mk 2 (none : Option Nat) (NodeType.derived 0 1 Operation.add) 1).node_type
        = NodeType.hint d →
      ∃ nd, exAddChain.nodes[d]? = some nd ∧
        (Node.mk 2 (none : Option Nat) (NodeType.derived 0 1 Operation.add) 1).level
          = nd.level + 1 ∧
        nd.level < (Node.mk 2 (none : Option Nat) (NodeType.derived 0 1 Operation.add) 1).level) :=
  c4_levels exAddChain 2 (Node.mk 2 none (NodeType.derived 0 1 Operation.add) 1)
    built_exAddChain rfl

/-- C5, counterexample to the claim as stated: the graph is a single node 0,
`constant 3`; running `fill_nodes` with an assignment entry naming the
Constant node's own index overwrites its cell in the seed phase, so its
resolved value is 4, not the construction value 3. -/
theorem c5_counterexample :
    fillValue exConst3 [(0, 4)] 0 = some 4 ∧ some (4 : Nat) ≠ some (3 : Nat) := by
  decide

/-- C5 (amended): a Constant node's resolved value after a successful
`fill_nodes` equals the value given at construction, for every input
assignment that contains no entry naming the Constant node's own index. -/
theorem c5_constant_invariance (g g' : CompGraph) (asg : List (Nat × Nat))
    (i v : Nat) (n : Node) (hb : Built g)
    (hn : g.nodes[i]? = some n) (ht : n.node_type = NodeType.constant v)
    (hns : NotSeeded asg i) (hfill : fill_nodes g asg = .ok g') :
    g'.get_value i = some v :=
  built_fill_constant hb hn ht hns hfill

/-- C5 witness: the `constant 3` node keeps value 3 under an assignment
naming only the nonexistent index 5. -/
theorem c5_witness : (fillResult exConst3 [(5, 9)]).get_value 0 = some 3 :=
  c5_constant_invariance exConst3 (fillResult exConst3 [(5, 9)]) [(5, 9)] 0 3
    (Node.mk 0 (some 3) (NodeType.constant 3) 0)
    built_exConst3 rfl rfl (by unfold NotSeeded; decide) rfl

/-- C6, counterexample to the claim as stated: with constants 3, 4, 5 and the
two violated constraints (0,1) and (0,2), `check_constraints` emits a single
diagnostic — for the first violated pair only — although the pair (0,2) with
values 3 and 5 is also violated; it does return false. -/
theorem c6_counterexample :
    check_constraints exTwoViolations = some (false, [(0, 3, 1, 4)]) ∧
    (0, 2) ∈ exTwoViolations.constraints ∧
    exTwoViolations.get_value 0 = some 3 ∧
    exTwoViolations.get_value 2 = some 5 := by
  decide

/-- C6 (amended): when at least one constraint pair is violated (all named
cells being populated), `check_constraints` returns false and emits exactly
one diagnostic, for the first violated pair in sequence order, naming both
node indices and both unequal values; later violated pairs produce no
diagnostic. -/
theorem c6_first_violation (g : CompGraph)
    (hpop : ∀ p ∈ g.constraints, (g.get_value p.1).isSome ∧ (g.get_value p.2).isSome)
    (hviol : ∃ p ∈ g.constraints, g.get_value p.1 ≠ g.get_value p.2) :
    ∃ (n1 v1 n2 v2 : Nat) (cs1 cs2 : List (Nat × Nat)),
      g.constraints = cs1 ++ (n1, n2) :: cs2 ∧
      (∀ p ∈ cs1, g.get_value p.1 = g.get_value p.2) ∧
      g.get_value n1 = some v1 ∧ g.get_value n2 = some v2 ∧ v1 ≠ v2 ∧
      check_constraints g = some (false, [(n1, v1, n2, v2)]) :=
  checkAux_first_violation g g.constraints hpop hviol

/-- C6 witness at the two-violation constants graph. -/
theorem c6_witness :
    ∃ (n1 v1 n2 v2 : Nat) (cs1 cs2 : List (Nat × Nat)),
      exTwoViolations.constraints = cs1 ++ (n1, n2) :: cs2 ∧
      (∀ p ∈ cs1, exTwoViolations.get_value p.1 = exTwoViolations.get_value p.2) ∧
      exTwoViolations.get_value n1 = some v1 ∧
      exTwoViolations.get_value n2 = some v2 ∧ v1 ≠ v2 ∧
      check_constraints exTwoViolations = some (false, [(n1, v1, n2, v2)]) :=
  c6_first_violation exTwoViolations (by decide) (by decide)

/-- C7: calling `add`, `mul`, `assert_equal` or `hint` with an argument index
that is not an existing node index aborts with the node-does-not-exist panic
of the source; in this functional embedding the error result carries no
graph, mirroring that the source panics before any mutation, so no node is
created, no constraint appended and no hint function registered. -/
theorem c7_nonexistent_node (g : CompGraph) (a b : Nat)
    (f : Nat → Except String Nat) (ha : g.nodes.length ≤ a) :
    g.add a b = .error "One of the nodes does not exist." ∧
    g.add b a = .error "One of the nodes does not exist." ∧
    g.mul a b = .error "One of the nodes does not exist." ∧
    g.mul b a = .error "One of the nodes does not exist." ∧
    g.assert_equal a b = .error "One of the nodes does not exist." ∧
    g.assert_equal b a = .error "One of the nodes does not exist." ∧
    g.hint a f = .error "Dependent node does not exist." := by
  refine ⟨?_, ?_, ?_, ?_, ?_, ?_, ?_⟩ <;>
    simp [CompGraph.add, CompGraph.mul, CompGraph.assert_equal, CompGraph.hint, ha]

/-- C7 witness: index 999 on the empty graph. -/
theorem c7_witness :
    CompGraph.new.add 999 0 = .error "One of the nodes does not exist." ∧
    CompGraph.new.add 0 999 = .error "One of the nodes does not exist." ∧
    CompGraph.new.mul 999 0 = .error "One of the nodes does not exist." ∧
    CompGraph.new.mul 0 999 = .error "One of the nodes does not exist." ∧
    CompGraph.new.assert_equal 999 0 = .error "One of the nodes does not exist." ∧
    CompGraph.new.assert_equal 0 999 = .error "One of the nodes does not exist." ∧
    CompGraph.new.hint 999 (fun v => .ok v) = .error "Dependent node does not exist." :=
  c7_nonexistent_node CompGraph.new 999 0 (fun v => .ok v) (by decide)

/-- C8: resolving an Input node whose Value Cell is empty and whose index is
absent from the input assignment aborts with the input-value-not-provided
panic; no default value is ever substituted. -/
theorem c8_missing_input (g : CompGraph) (i : Nat) (node : Node)
    (asg : List (Nat × Nat)) (fuel : Nat)
    (hn : g.nodes[i]? = some node) (hv : node.get_value = none)
    (ht : node.node_type = NodeType.input) (ha : lookupAsg asg i = none) :
    fill_node g (fuel + 1) i asg = .error .inputMissing := by
  rw [fill_node_step_input asg fuel hn hv ht, ha]

/-- C8 witness: the lone Input node under the empty assignment. -/
theorem c8_witness : fill_node exInputOnly 1 0 [] = .error .inputMissing :=
  c8_missing_input exInputOnly 0 (Node.mk 0 none NodeType.input 0) [] 0
    rfl rfl rfl rfl

/-- C9 (implicit): in every builder-produced graph, every Hint node's index
has a registered callback in the hint registry, and consequently `fill_node`
can never return the hint-function-not-found abort on such a graph. -/
theorem c9_hint_registered (g : CompGraph) (hb : Built g) :
    HintReg g ∧
    ∀ (fuel i : Nat) (asg : List (Nat × Nat)),
      fill_node g fuel i asg ≠ .error .hintMissing :=
  ⟨Built_hintReg hb, fun fuel i asg => fill_node_no_hintMissing asg fuel g i (Built_hintReg hb)⟩

/-- C9 witness at the Input-plus-Hint graph. -/
theorem c9_witness :
    HintReg exHintChain ∧
    ∀ (fuel i : Nat) (asg : List (Nat × Nat)),
      fill_node exHintChain fuel i asg ≠ .error .hintMissing :=
  c9_hint_registered exHintChain built_exHintChain

/-- C10 (implicit): `fill_nodes` silently ignores an input-assignment entry
whose index does not name an existing node: deleting such an entry does not
change the outcome of `fill_nodes` at all. -/
theorem c10_ignores_unknown_entries (g : CompGraph) (a1 a2 : List (Nat × Nat))
    (k v : Nat) (hk : g.nodes.length ≤ k) :
    fill_nodes g (a1 ++ (k, v) :: a2) = fill_nodes g (a1 ++ a2) := by
  rw [fill_nodes_filter g (a1 ++ (k, v) :: a2), fill_nodes_filter g (a1 ++ a2)]
  have hP : ¬ k < g.nodes.length := by omega
  rw [List.filter_append, List.filter_append, List.filter_cons]
  simp [hP]

/-- C10 witness: the entry (5, 7) is inert on the one-node graph. -/
theorem c10_witness :
    fill_nodes exConst3 ([] ++ (5, 7) :: [(0, 1)]) = fill_nodes exConst3 ([] ++ [(0, 1)]) :=
  c10_ignores_unknown_entries exConst3 [] [(0, 1)] 5 7 (by decide)
